import Mathlib

/-!
# Verification of the vrcsocial client state reconciler

A shallow embedding, in Lean, of the browser-side state logic of the
vrcsocial dashboard: the location-string parser, the activity log buffer,
the venue (world) cache, the instance rebuild pipeline, the snapshot
refresh of location timestamps, the `friend-update` event handler and the
paginated friends read of the API route.  JavaScript `Map`s are modelled
as association lists, JavaScript objects-as-records as `structure`s,
strings that may be `undefined` as `Option String`, and the stable
`Array.prototype.sort` as a stable insertion sort by the same comparator.
JavaScript truthiness on strings (`""`/`undefined` falsy) and on numbers
(`0` falsy) is modelled explicitly.
-/

namespace VRCSocial

/-! ## JavaScript string primitives -/

/-- JS truthiness of a possibly-undefined string: `undefined` and `""` are falsy. -/
def truthy : Option String → Bool
  | none => false
  | some s => s ≠ ""

/-- JS `a || b` on two possibly-undefined strings. -/
def jsOrO (a b : Option String) : Option String :=
  if truthy a then a else b

/-- JS `a || d` where the fallback `d` is a string literal. -/
def jsOrS (a : Option String) (d : String) : String :=
  match a with
  | some s => if s = "" then d else s
  | none => d

/-- JS `a ?? b` (nullish coalescing) on possibly-undefined strings. -/
def jsCoalesce (a b : Option String) : Option String :=
  match a with
  | some s => some s
  | none => b

/-- `pat` is a prefix of `l` (decidable, `Bool`-valued). -/
def listPrefixOf : List Char → List Char → Bool
  | [], _ => true
  | _ :: _, [] => false
  | a :: as, b :: bs => a = b && listPrefixOf as bs

/-- JS `hay.includes(pat)`: `pat` occurs as a contiguous sublist of `l`. -/
def containsSub (pat : List Char) : List Char → Bool
  | [] => listPrefixOf pat []
  | b :: bs => listPrefixOf pat (b :: bs) || containsSub pat bs

/-- One position of the regex scan: if `l` starts with the literal `lit`,
take the maximal run of non-`')'` characters after it; the position
matches when that run is nonempty and is followed by `')'` (this is
`lit` + `[^)]+` + `)` with the run as capture). -/
def capAt (lit l : List Char) : Option (List Char) :=
  if listPrefixOf lit l then
    let rest := l.drop lit.length
    let run := rest.takeWhile (fun c => c ≠ ')')
    let rest2 := rest.drop run.length
    if run ≠ [] ∧ rest2.head? = some ')' then some run else none
  else none

/-- Leftmost match of the pattern `lit` + `[^)]+` + `)`, returning the
captured run, as JS `String.prototype.match` does for the regexes
`\((usr_[^)]+)\)`, `~group\((grp_[^)]+)\)` and `~region\(([^)]+)\)`. -/
def scanCap (lit : List Char) : List Char → Option (List Char)
  | [] => capAt lit []
  | c :: cs =>
    match capAt lit (c :: cs) with
    | some r => some r
    | none => scanCap lit cs

/-- JS `s.replace(pat, '')` for a string `pat`: remove the first
occurrence of `pat` only. -/
def replaceFirst (pat : List Char) : List Char → List Char
  | [] => []
  | c :: cs =>
    if listPrefixOf pat (c :: cs) then (c :: cs).drop pat.length
    else c :: replaceFirst pat cs

/-- JS `parseInt(s, 10)` restricted to the unsigned decimal shapes that
favorite-group tags (`group_N`) produce: the leading digit run, `NaN`
(here `none`) when there is none.  Sign and radix prefixes never occur in
these inputs. -/
def parseInt10 (s : String) : Option Nat :=
  let ds := s.toList.takeWhile Char.isDigit
  if ds = [] then none
  else some (ds.foldl (fun n c => n * 10 + (c.toNat - 48)) 0)

/-- The favorite-group ordinal of a tag such as `"group_0"`:
`parseInt(s.replace('group_', ''), 10)` from the source. -/
def parseGroupNum (s : String) : Option Nat :=
  parseInt10 (String.mk (replaceFirst ("group_".toList) s.toList))

/-! ## The location parsers

`parseInstanceInfo` is the client parser (FriendsProvider);
`parseLocation` is the API route's parser.  Both split the location on
`':'` and examine `parts[1]` — the segment between the first and second
colon — for suffix tags. -/

/-- JS `location.split(':')` over the character list (structural, so
that concrete runs reduce in the kernel; it agrees with
`String.splitOn ":"`). -/
def splitOnColon : List Char → List (List Char)
  | [] => [[]]
  | c :: cs =>
    if c = ':' then [] :: splitOnColon cs
    else
      match splitOnColon cs with
      | [] => [[c]]
      | s :: rest => (c :: s) :: rest

/-- `parts[1]` of the split — the segment of the location between its
first and second `':'`. -/
def rawSeg (location : String) : List Char :=
  (splitOnColon location.toList).getD 1 []

/-- Result record of `parseInstanceInfo`. -/
structure InstInfo where
  name : String
  type : String
  region : String
  creatorId : Option String
  groupId : Option String
deriving Repr, DecidableEq

/-- The access-tier cascade shared verbatim by both parsers: group tags
first (subdivided by `groupAccessType`), then `~private(` (subdivided by
`~canRequestInvite`), then `~friends(`, then `~hidden(`, else Public. -/
def tierOf (raw : List Char) : String :=
  if containsSub ("~group(".toList) raw then
    if containsSub ("groupAccessType(public)".toList) raw then "Group Public"
    else if containsSub ("groupAccessType(plus)".toList) raw then "Group+"
    else if containsSub ("groupAccessType(members)".toList) raw then "Group"
    else "Group"
  else if containsSub ("~private(".toList) raw then
    if containsSub ("~canRequestInvite".toList) raw then "Invite+" else "Invite"
  else if containsSub ("~friends(".toList) raw then "Friends"
  else if containsSub ("~hidden(".toList) raw then "Friends+"
  else "Public"

/-- The region tag lookup of `parseInstanceInfo`: a `~region(code)`
capture mapped through the fixed table, defaulting to `"US"`. -/
def regionOf (raw : List Char) : String :=
  match scanCap ("~region(".toList) raw with
  | none => "US"
  | some r =>
    let rl := String.mk (r.map Char.toLower)
    if rl = "jp" then "JP"
    else if rl = "eu" then "EU"
    else if rl = "use" then "US East"
    else if rl = "usw" then "US West"
    else "US"

/-- First `(usr_...)` capture in `raw` (regex `\((usr_[^)]+)\)`). -/
def firstUsrTag (raw : List Char) : Option String :=
  (scanCap ("(usr_".toList) raw).map (fun r => "usr_" ++ String.mk r)

/-- First `~group(grp_...)` capture in `raw` (regex `~group\((grp_[^)]+)\)`). -/
def firstGrpTag (raw : List Char) : Option String :=
  (scanCap ("~group(grp_".toList) raw).map (fun r => "grp_" ++ String.mk r)

/-- `parseInstanceInfo` from the client provider: `null` (here `none`)
on the empty string and the three sentinel strings, a fixed Public/US
record when the location has no `':'`, and otherwise a record built from
`parts[1]`. -/
def parseInstanceInfo (location : String) : Option InstInfo :=
  if location = "" ∨ location = "offline" ∨ location = "private" ∨ location = "traveling" then
    none
  else if (splitOnColon location.toList).length < 2 then
    some ⟨"", "Public", "US", none, none⟩
  else
    some ⟨String.mk ((rawSeg location).takeWhile (fun c => c ≠ '~')),
      tierOf (rawSeg location), regionOf (rawSeg location),
      firstUsrTag (rawSeg location), firstGrpTag (rawSeg location)⟩

/-- Result record of the API route's `parseLocation`. -/
structure LocInfo where
  instanceType : String
  ownerId : Option String
  groupId : Option String
deriving Repr, DecidableEq

/-- `parseLocation` from the API route: a fixed Private record for the
empty string and the `offline`/`private` sentinels (it has no
`traveling` case), a fixed Public record when there is no `':'`, else
tier/owner/group from `parts[1]`. -/
def parseLocation (location : String) : LocInfo :=
  if location = "" ∨ location = "offline" ∨ location = "private" then
    ⟨"Private", none, none⟩
  else if (splitOnColon location.toList).length < 2 then ⟨"Public", none, none⟩
  else
    ⟨tierOf (rawSeg location), firstUsrTag (rawSeg location), firstGrpTag (rawSeg location)⟩

/-! ## Activity log -/

/-- One activity-log entry.  The source also stores a random numeric id
and a formatted wall-clock date, both nondeterministic; the buffer logic
never reads them, so the embedding keeps the fields the logic and the
claims are about. -/
structure LogEntry where
  type : String
  user : String
  detail : String
  color : String
deriving Repr, DecidableEq

/-- `addLogEntry` from the provider: prepend the new entry and truncate
to 500 — `[newLog, ...existing].slice(0, 500)`. -/
def addLogEntry (e : LogEntry) (logs : List LogEntry) : List LogEntry :=
  (e :: logs).take 500

/-! ## World (venue) cache -/

/-- A cached world record (`WorldInfo` in the source). -/
structure WorldInfo where
  id : String
  name : String
  thumbnailImageUrl : Option String
  cachedAt : Int
deriving Repr, DecidableEq

/-- `WORLD_CACHE_TTL = 24 * 60 * 60 * 1000` milliseconds. -/
def WORLD_CACHE_TTL : Int := 24 * 60 * 60 * 1000

/-- The cache-hit branch of `fetchWorldInfo`: return the cached entry
when it exists and `Date.now() - cached.cachedAt < WORLD_CACHE_TTL`;
`none` means the function falls through to a network fetch. -/
def fetchWorldInfoCached (cache : List (String × WorldInfo)) (now : Int)
    (worldId : String) : Option WorldInfo :=
  match (cache.find? (fun p => p.1 = worldId)).map (fun p => p.2) with
  | some c => if now - c.cachedAt < WORLD_CACHE_TTL then some c else none
  | none => none

/-- The localStorage load path: an entry is adopted into the in-memory
cache only if `data.cachedAt` is truthy (nonzero) and
`now - data.cachedAt < WORLD_CACHE_TTL`. -/
def loadWorldCache (stored : List (String × WorldInfo)) (now : Int) :
    List (String × WorldInfo) :=
  stored.filter (fun p => p.2.cachedAt ≠ 0 ∧ now - p.2.cachedAt < WORLD_CACHE_TTL)

/-! ## Contacts, timestamps, instance groups -/

/-- A contact record as held in `friendsDataRef` (and as delivered by the
snapshot endpoint).  Fields that JS may leave `undefined` are `Option`;
`joinedAt` is the locally tracked stay timestamp, `0` standing for the
JS `undefined`/falsy default before the rebuild fills it in. -/
structure Friend where
  id : String
  name : String := ""
  status : Option String := none
  statusMsg : Option String := none
  icon : Option String := none
  location : String := ""
  worldName : Option String := none
  worldImageUrl : Option String := none
  instanceType : Option String := none
  isPrivate : Bool := false
  isFavorite : Bool := false
  favoriteGroup : Option String := none
  ownerId : Option String := none
  ownerName : Option String := none
  groupId : Option String := none
  groupName : Option String := none
  instanceUserCount : Option Nat := none
  joinedAt : Nat := 0
deriving Repr, DecidableEq

/-- A `locationTimestampsRef` entry: last seen location and when it was
first observed. -/
structure TSEntry where
  location : String
  joinedAt : Nat
deriving Repr, DecidableEq

/-- The timestamp map, a JS `Map` keyed by contact id. -/
abbrev TSMap := List (String × TSEntry)

/-- `Map.get`. -/
def tsGet (ts : TSMap) (id : String) : Option TSEntry :=
  (ts.find? (fun p => p.1 = id)).map (fun p => p.2)

/-- `Map.set`: overwrite in place when the key exists, append otherwise. -/
def tsSet (ts : TSMap) (id : String) (e : TSEntry) : TSMap :=
  if (ts.find? (fun p => p.1 = id)).isSome then
    ts.map (fun p => if p.1 = id then (id, e) else p)
  else ts ++ [(id, e)]

/-- A derived instance group (`InstanceGroup` in the source). -/
structure InstanceGroup where
  id : String
  worldName : String
  instanceType : String
  region : String
  userCount : Nat
  instanceUserCount : Option Nat
  friends : List Friend
  otherFriends : List Friend
  minFavoriteGroup : Nat
  creatorId : Option String
  creatorName : Option String
  worldImageUrl : Option String
  groupId : Option String
  groupName : Option String
  ownerId : Option String
  ownerName : Option String
deriving Repr, DecidableEq

/-! ## Stable sort by a JS comparator

`Array.prototype.sort` with a consistent comparator is a stable sort by
the total preorder `cmp a b ≤ 0`; the embedding uses a stable insertion
sort by that Boolean relation. -/

/-- Insert `a` before the first element `b` with `le a b` (so after all
elements it compares equal to — the stable position). -/
def orderedInsertBy (le : α → α → Bool) (a : α) : List α → List α
  | [] => [a]
  | b :: l => if le a b then a :: b :: l else b :: orderedInsertBy le a l

/-- Stable insertion sort by a Boolean relation. -/
def insertionSortBy (le : α → α → Bool) : List α → List α
  | [] => []
  | a :: l => orderedInsertBy le a (insertionSortBy le l)

/-! ## The instance rebuild (`rebuildInstances`) -/

/-- The `friendMap` lookup built at the top of `rebuildInstances`
(`friendsDataRef.forEach((f, id) => friendMap.set(id, f.name))`): a JS
`Map` keeps the last value set for a key. -/
def nameOf (contacts : List Friend) (id : String) : Option String :=
  ((contacts.filter (fun f => f.id = id)).getLast?).map (fun f => f.name)

/-- `const loc = f.location || "offline"`. -/
def locKey (f : Friend) : String :=
  if f.location = "" then "offline" else f.location

/-- Creation of a fresh group for key `loc` from the first contact `f`
encountered at that location (`grouped[effectiveLoc] = {...}`; the
source's `effectiveLoc` equals `loc`). -/
def initGroup (contacts : List Friend) (f : Friend) (loc : String) : InstanceGroup :=
  let info := parseInstanceInfo loc
  let ownerName0 : Option String :=
    match jsOrO f.ownerName none with
    | some s => some s
    | none =>
      match info.bind (fun i => i.creatorId) with
      | some cid => if cid = "" then none else nameOf contacts cid
      | none => none
  let isTraveling := loc = "traveling"
  { id := loc
    worldName :=
      if isTraveling then "Traveling"
      else jsOrS f.worldName
        (if containsSub ("private".toList) loc.toList then "Private World"
         else "World " ++ String.mk ((splitOnColon loc.toList).headD []))
    worldImageUrl := if isTraveling then none else f.worldImageUrl
    instanceType :=
      if isTraveling then "Traveling"
      else jsOrS f.instanceType (jsOrS (info.map (fun i => i.type)) "Public")
    region :=
      if isTraveling then ""
      else if f.isPrivate || loc = "private" then ""
      else jsOrS (info.map (fun i => i.region)) "US"
    userCount := 0
    instanceUserCount := if isTraveling then none else f.instanceUserCount
    friends := []
    otherFriends := []
    minFavoriteGroup := 999
    creatorId := if isTraveling then none else info.bind (fun i => i.creatorId)
    creatorName := if isTraveling then none else ownerName0
    groupId := if isTraveling then none else jsOrO f.groupId (info.bind (fun i => i.groupId))
    groupName := if isTraveling then none else f.groupName
    ownerId := if isTraveling then none else jsOrO f.ownerId (info.bind (fun i => i.creatorId))
    ownerName := if isTraveling then none else ownerName0 }

/-- Adding contact `f` to its group: attach the tracked `joinedAt`
(`timestampData?.joinedAt || now`), then push onto `friends` (counting
it and folding its favorite-group ordinal into the minimum) when
favorited, onto `otherFriends` otherwise. -/
def addMember (ts : TSMap) (now : Nat) (g : InstanceGroup) (f : Friend) : InstanceGroup :=
  let fw : Friend :=
    { f with joinedAt :=
        match tsGet ts f.id with
        | some e => if e.joinedAt = 0 then now else e.joinedAt
        | none => now }
  if f.isFavorite then
    let mfg :=
      match f.favoriteGroup with
      | some s =>
        if s = "" then g.minFavoriteGroup
        else
          match parseGroupNum s with
          | some n => if n < g.minFavoriteGroup then n else g.minFavoriteGroup
          | none => g.minFavoriteGroup
      | none => g.minFavoriteGroup
    { g with friends := g.friends ++ [fw], userCount := g.userCount + 1,
             minFavoriteGroup := mfg }
  else
    { g with otherFriends := g.otherFriends ++ [fw] }

/-- One iteration of the grouping loop: skip offline contacts, create
the group on first sight of its key, then add the member. -/
def stepGroup (contacts : List Friend) (ts : TSMap) (now : Nat)
    (acc : List InstanceGroup) (f : Friend) : List InstanceGroup :=
  let loc := locKey f
  if loc = "offline" then acc
  else
    let acc1 :=
      if (acc.find? (fun g => g.id = loc)).isSome then acc
      else acc ++ [initGroup contacts f loc]
    acc1.map (fun g => if g.id = loc then addMember ts now g f else g)

/-- The grouping pass of `rebuildInstances`, in contact-map iteration
order (JS objects keep key insertion order, so the group list is in
first-occurrence order). -/
def buildGrouped (contacts : List Friend) (ts : TSMap) (now : Nat) : List InstanceGroup :=
  contacts.foldl (stepGroup contacts ts now) []

/-- The within-group member comparator of `rebuildInstances`: the
instance owner first, then ascending `a.joinedAt || now`. -/
def friendCmp (now : Nat) (g : InstanceGroup) (a b : Friend) : Int :=
  let aIsOwner :=
    match g.ownerId with
    | some o => o ≠ "" && a.id = o
    | none => false
  let bIsOwner :=
    match g.ownerId with
    | some o => o ≠ "" && b.id = o
    | none => false
  if aIsOwner && !bIsOwner then -1
  else if !aIsOwner && bIsOwner then 1
  else ((if a.joinedAt = 0 then now else a.joinedAt : Nat) : Int) -
       ((if b.joinedAt = 0 then now else b.joinedAt : Nat) : Int)

/-- Sorting both member lists of a group with `friendCmp`. -/
def sortWithin (now : Nat) (g : InstanceGroup) : InstanceGroup :=
  { g with
      friends := insertionSortBy (fun a b => decide (friendCmp now g a b ≤ 0)) g.friends,
      otherFriends := insertionSortBy (fun a b => decide (friendCmp now g a b ≤ 0)) g.otherFriends }

/-- `a.id === 'private' || a.worldName === 'Private World'`. -/
def isHiddenG (g : InstanceGroup) : Bool :=
  g.id = "private" || g.worldName = "Private World"

/-- `a.id === 'traveling'`. -/
def isTravelingG (g : InstanceGroup) : Bool :=
  g.id = "traveling"

/-- `getOldestFavoriteJoinTime`: the minimum of `f.joinedAt || now` over
the group's favorited members, `now` when there are none. -/
def oldestJoin (now : Nat) (g : InstanceGroup) : Nat :=
  match g.friends.map (fun f => if f.joinedAt = 0 then now else f.joinedAt) with
  | [] => now
  | t :: rest => rest.foldl Nat.min t

/-- The instance comparator of `rebuildInstances`: traveling after
concrete venues, private/"Private World" groups last, concrete (and
mutually non-hidden) pairs by earliest favorited join time, then
ascending minimum favorite-group ordinal, then descending favorite
count. -/
def instCmp (now : Nat) (a b : InstanceGroup) : Int :=
  let aH := isHiddenG a
  let bH := isHiddenG b
  let aT := isTravelingG a
  let bT := isTravelingG b
  if aT && !bT && !bH then 1
  else if !aT && bT && !aH then -1
  else if aT && bH then -1
  else if aH && bT then 1
  else if aH && !bH then 1
  else if !aH && bH then -1
  -- the source's early return `if (!aIsHidden && !bIsHidden) { ... }`,
  -- flattened into the cascade
  else if aH = false ∧ bH = false ∧ oldestJoin now a ≠ oldestJoin now b then
    (oldestJoin now a : Int) - (oldestJoin now b : Int)
  else if a.minFavoriteGroup ≠ b.minFavoriteGroup then
    (a.minFavoriteGroup : Int) - (b.minFavoriteGroup : Int)
  else (b.userCount : Int) - (a.userCount : Int)

/-- `rebuildInstances`: group, sort members within each group, keep only
groups with at least one favorited member, and sort the groups. -/
def rebuildInstances (contacts : List Friend) (ts : TSMap) (now : Nat) : List InstanceGroup :=
  let grouped := (buildGrouped contacts ts now).map (sortWithin now)
  insertionSortBy (fun a b => decide (instCmp now a b ≤ 0))
    (grouped.filter (fun g => 0 < g.userCount))

/-! ## Snapshot refresh of location timestamps (`fetchFriends`) -/

/-- One contact of the refresh loop: write a fresh `{location, joinedAt:
now}` record only when the contact has no stored record or its stored
location differs from the reported one. -/
def refreshStep (now : Nat) (ts : TSMap) (f : Friend) : TSMap :=
  match tsGet ts f.id with
  | none => tsSet ts f.id ⟨f.location, now⟩
  | some e => if e.location ≠ f.location then tsSet ts f.id ⟨f.location, now⟩ else ts

/-- The location-timestamp tracking pass of `fetchFriends`, over the
snapshot's contact map. -/
def refreshTimestamps (snapshot : List Friend) (ts : TSMap) (now : Nat) : TSMap :=
  snapshot.foldl (refreshStep now) ts

/-! ## The `friend-update` event handler -/

/-- The `data.user` payload of a `friend-update` event. -/
structure UserPayload where
  displayName : String
  status : Option String := none
  statusDescription : Option String := none
  userIcon : Option String := none
  profilePicOverride : Option String := none
  currentAvatarThumbnailImageUrl : Option String := none
deriving Repr, DecidableEq

/-- The reconciler state the handler touches: the live contact map
(`friendsDataRef`, in insertion order) and the persisted log buffer. -/
structure RState where
  friends : List Friend
  logs : List LogEntry
deriving Repr, DecidableEq

/-- The `friend-update` branch of `handleSSEEvent`: a no-op when the
contact is not tracked; otherwise log a status change (favorited, both
values truthy, values differ) and a status-message change (favorited,
values differ, new value truthy), then patch name, status, status
message and icon onto the existing record. -/
def handleFriendUpdate (st : RState) (userId : String) (user : UserPayload) : RState :=
  match st.friends.find? (fun f => f.id = userId) with
  | none => st
  | some ef =>
    let newStatus := jsOrO user.status ef.status
    let newStatusMsg := jsCoalesce user.statusDescription ef.statusMsg
    let logs1 :=
      if ef.isFavorite && truthy ef.status && truthy newStatus &&
          decide (ef.status ≠ newStatus) then
        addLogEntry
          ⟨"Status", user.displayName,
            (jsOrS ef.status "") ++ " to " ++ (jsOrS newStatus ""), "text-cyan-400"⟩
          st.logs
      else st.logs
    let logs2 :=
      if ef.isFavorite && decide (ef.statusMsg ≠ newStatusMsg) && truthy newStatusMsg then
        addLogEntry ⟨"StatusMsg", user.displayName, jsOrS newStatusMsg "", "text-purple-400"⟩
          logs1
      else logs1
    let patched : Friend :=
      { ef with
          name := user.displayName
          status := newStatus
          statusMsg := newStatusMsg
          icon := jsOrO user.userIcon
            (jsOrO user.profilePicOverride
              (jsOrO user.currentAvatarThumbnailImageUrl ef.icon)) }
    { friends := st.friends.map (fun g => if g.id = userId then patched else g)
      logs := logs2 }

/-! ## The paginated friends read (API route `GET`) -/

/-- One upstream response to `GET /auth/user/friends?offline=false&n=100
&offset=k`: an HTTP-ok JSON array, an HTTP-ok non-array body, a non-ok
HTTP status, or a thrown fetch error. -/
inductive PageResult where
  | ok (xs : List Friend)
  | badJson
  | httpError
  | exc
deriving Repr, DecidableEq

/-- Outcome of the pagination loop: the fatal early return (taken only
with no data accumulated), a normal completion with the accumulated
list, or exhaustion of the modelled response sequence while the loop
still wanted another page. -/
inductive FetchOutcome where
  | fatal
  | success (xs : List Friend)
  | ranOut (acc : List Friend)
deriving Repr, DecidableEq

/-- The `while (friendsHasMore)` loop, one step per upstream response:
an error or thrown exception is fatal iff nothing was accumulated yet; a
non-array or empty page stops; a nonempty page is appended, stopping
when it is shorter than the page size 100 and otherwise continuing at
`offset + 100`.  `fuel` bounds the modelled run. -/
def fetchFriendsGo (pages : Nat → PageResult) : Nat → Nat → List Friend → FetchOutcome
  | 0, _, acc => .ranOut acc
  | fuel + 1, offset, acc =>
    match pages offset with
    | .httpError => if acc.isEmpty then .fatal else .success acc
    | .exc => if acc.isEmpty then .fatal else .success acc
    | .badJson => .success acc
    | .ok xs =>
      if xs.isEmpty then .success acc
      else if xs.length < 100 then .success (acc ++ xs)
      else fetchFriendsGo pages fuel (offset + 100) (acc ++ xs)

/-! ## Spec-side relations (written from the specification's wording,
for comparison with the code-side definitions above) -/

/-- Spec side, for the tier claim: the whole remainder of the location
after its first `':'`. -/
def afterFirstColon (s : String) : String :=
  String.mk (((s.toList).dropWhile (fun c => c ≠ ':')).drop 1)

/-- Spec side: the segment `raw` carries the tag (JS `includes`). -/
def hasTag (tag : String) (raw : List Char) : Prop :=
  containsSub tag.toList raw = true

instance (tag : String) (raw : List Char) : Decidable (hasTag tag raw) := by
  unfold hasTag
  infer_instance

/-- Spec side: the access-tier table in the spec's priority order, as a
relation between the parsed segment and the resulting tier — group tags
first (subdivided by `groupAccessType`, unknown or absent subtype giving
plain Group), else `~private(` (split by `~canRequestInvite`), else
`~friends(`, else `~hidden(`, else Public. -/
def specTier (raw : List Char) (t : String) : Prop :=
  (hasTag "~group(" raw ∧ hasTag "groupAccessType(public)" raw ∧ t = "Group Public") ∨
  (hasTag "~group(" raw ∧ ¬ hasTag "groupAccessType(public)" raw ∧
    hasTag "groupAccessType(plus)" raw ∧ t = "Group+") ∨
  (hasTag "~group(" raw ∧ ¬ hasTag "groupAccessType(public)" raw ∧
    ¬ hasTag "groupAccessType(plus)" raw ∧ t = "Group") ∨
  (¬ hasTag "~group(" raw ∧ hasTag "~private(" raw ∧
    hasTag "~canRequestInvite" raw ∧ t = "Invite+") ∨
  (¬ hasTag "~group(" raw ∧ hasTag "~private(" raw ∧
    ¬ hasTag "~canRequestInvite" raw ∧ t = "Invite") ∨
  (¬ hasTag "~group(" raw ∧ ¬ hasTag "~private(" raw ∧
    hasTag "~friends(" raw ∧ t = "Friends") ∨
  (¬ hasTag "~group(" raw ∧ ¬ hasTag "~private(" raw ∧
    ¬ hasTag "~friends(" raw ∧ hasTag "~hidden(" raw ∧ t = "Friends+") ∨
  (¬ hasTag "~group(" raw ∧ ¬ hasTag "~private(" raw ∧
    ¬ hasTag "~friends(" raw ∧ ¬ hasTag "~hidden(" raw ∧ t = "Public")

/-- Spec side, for the instance-order claim: 0 for a concrete venue, 1
for the traveling pseudo-group, 2 for a pinned-last group (the
`private` pseudo-group, or any group displayed as "Private World"). -/
def pseudoRank (g : InstanceGroup) : Nat :=
  if isHiddenG g then 2 else if isTravelingG g then 1 else 0

/-- Spec side: the tie-break order — ascending minimum favorite-group
ordinal, then descending favorite count. -/
def tieLe (a b : InstanceGroup) : Prop :=
  a.minFavoriteGroup < b.minFavoriteGroup ∨
    (a.minFavoriteGroup = b.minFavoriteGroup ∧ b.userCount ≤ a.userCount)

/-- Spec side: the amended output order of `rebuildInstances` — by
`pseudoRank` (concrete venues, then traveling, then pinned-last groups),
within non-pinned ranks ascending by the earliest favorited join time
then `tieLe`, within the pinned rank by `tieLe` alone. -/
def specLe (now : Nat) (a b : InstanceGroup) : Prop :=
  pseudoRank a < pseudoRank b ∨
    (pseudoRank a = pseudoRank b ∧
      (if isHiddenG a then tieLe a b
       else oldestJoin now a < oldestJoin now b ∨
         (oldestJoin now a = oldestJoin now b ∧ tieLe a b)))

/-- Sample state for examples: a favorited, tracked contact. -/
def sampleState : RState :=
  ⟨[{ id := "u1", name := "A", status := some "active", statusMsg := some "hi",
      isFavorite := true, location := "private" }], []⟩

/-- The closed set of access tiers the client parser can produce. -/
def tierList : List String :=
  ["Public", "Group Public", "Group+", "Group", "Invite+", "Invite", "Friends", "Friends+"]

/-- The closed set of region codes the client parser can produce. -/
def regionList : List String :=
  ["US", "JP", "EU", "US East", "US West"]

/-! ## Observables of the grouping pass (for the proofs below) -/

/-- The group stored under key `key` (JS `grouped[key]`; the grouping
pass keeps group ids unique, and `find?` returns the one entry). -/
def gLookup (key : String) (gs : List InstanceGroup) : Option InstanceGroup :=
  gs.find? (fun g => g.id = key)

/-- The favorite count of the group under `key`, `0` when absent. -/
def gCount (key : String) (gs : List InstanceGroup) : Nat :=
  match gLookup key gs with
  | some g => g.userCount
  | none => 0

/-- How many favorited contacts currently occupy key `key`. -/
def favAt (key : String) (l : List Friend) : Nat :=
  (l.filter (fun f => f.isFavorite && locKey f = key)).length

/-- The structural invariant of every group the grouping pass builds:
the favorite count equals the favorited-member count, the key is a real
location (not offline, not empty), members are partitioned by the
favorite flag, a positive count is witnessed by a favorited contact at
that key, and the traveling pseudo-group is displayed as "Traveling"
(hence never classified as hidden). -/
def groupOK (contacts : List Friend) (g : InstanceGroup) : Prop :=
  g.userCount = g.friends.length ∧
  g.id ≠ "offline" ∧ g.id ≠ "" ∧
  (∀ fw ∈ g.friends, fw.isFavorite = true) ∧
  (∀ fw ∈ g.otherFriends, fw.isFavorite = false) ∧
  (0 < g.userCount → ∃ f ∈ contacts, f.isFavorite = true ∧ f.location = g.id) ∧
  (g.id = "traveling" → g.worldName = "Traveling")

/-- Every member record carries a nonzero `joinedAt` (true whenever the
timestamp map covers the present contacts). -/
def membersNonzero (g : InstanceGroup) : Prop :=
  (∀ fw ∈ g.friends, fw.joinedAt ≠ 0) ∧ (∀ fw ∈ g.otherFriends, fw.joinedAt ≠ 0)

/-! ## Lemmas about the stable sort -/

theorem mem_orderedInsertBy (le : α → α → Bool) (a x : α) (l : List α) :
    x ∈ orderedInsertBy le a l ↔ x = a ∨ x ∈ l := by
  induction l with
  | nil => simp [orderedInsertBy]
  | cons b l ih =>
    simp only [orderedInsertBy]
    split
    · simp [List.mem_cons]
    · simp only [List.mem_cons, ih]
      tauto

theorem mem_insertionSortBy (le : α → α → Bool) (x : α) (l : List α) :
    x ∈ insertionSortBy le l ↔ x ∈ l := by
  induction l with
  | nil => simp [insertionSortBy]
  | cons a l ih =>
    simp only [insertionSortBy, mem_orderedInsertBy, ih, List.mem_cons]

theorem length_orderedInsertBy (le : α → α → Bool) (a : α) (l : List α) :
    (orderedInsertBy le a l).length = l.length + 1 := by
  induction l with
  | nil => rfl
  | cons b l ih =>
    simp only [orderedInsertBy]
    split
    · rfl
    · simp [ih]

theorem length_insertionSortBy (le : α → α → Bool) (l : List α) :
    (insertionSortBy le l).length = l.length := by
  induction l with
  | nil => rfl
  | cons a l ih => simp [insertionSortBy, length_orderedInsertBy, ih]

theorem orderedInsertBy_congr (le1 le2 : α → α → Bool) (a : α) (l : List α)
    (h : ∀ x ∈ l, le1 a x = le2 a x) :
    orderedInsertBy le1 a l = orderedInsertBy le2 a l := by
  induction l with
  | nil => rfl
  | cons b l ih =>
    simp only [orderedInsertBy]
    rw [h b (by simp)]
    split
    · rfl
    · rw [ih (fun x hx => h x (by simp [hx]))]

theorem insertionSortBy_congr (le1 le2 : α → α → Bool) (l : List α)
    (h : ∀ x ∈ l, ∀ y ∈ l, le1 x y = le2 x y) :
    insertionSortBy le1 l = insertionSortBy le2 l := by
  induction l with
  | nil => rfl
  | cons a l ih =>
    simp only [insertionSortBy]
    rw [ih (fun x hx y hy => h x (by simp [hx]) y (by simp [hy]))]
    refine orderedInsertBy_congr le1 le2 a _ (fun x hx => ?_)
    have hx2 : x ∈ l := (mem_insertionSortBy le2 x l).mp hx
    exact h a (by simp) x (by simp [hx2])

theorem pairwise_orderedInsertBy (le : α → α → Bool) (a : α) (l : List α)
    (hp : l.Pairwise (fun x y => le x y = true))
    (htot : ∀ x ∈ l, le a x = true ∨ le x a = true)
    (htrans : ∀ x ∈ l, ∀ y ∈ l, le a x = true → le x y = true → le a y = true) :
    (orderedInsertBy le a l).Pairwise (fun x y => le x y = true) := by
  induction l with
  | nil => simp [orderedInsertBy]
  | cons b l ih =>
    rcases List.pairwise_cons.mp hp with ⟨hb, hl⟩
    simp only [orderedInsertBy]
    split
    · rename_i hab
      refine List.pairwise_cons.mpr ⟨?_, hp⟩
      intro y hy
      rcases List.mem_cons.mp hy with rfl | hy2
      · exact hab
      · exact htrans b (by simp) y (by simp [hy2]) hab (hb y hy2)
    · rename_i hab
      refine List.pairwise_cons.mpr ⟨?_, ?_⟩
      · intro y hy
        rcases (mem_orderedInsertBy le a y l).mp hy with rfl | hy2
        · rcases htot b (by simp) with h1 | h2
          · exact absurd h1 hab
          · exact h2
        · exact hb y hy2
      · exact ih hl (fun x hx => htot x (by simp [hx]))
          (fun x hx y hy => htrans x (by simp [hx]) y (by simp [hy]))

theorem pairwise_insertionSortBy (le : α → α → Bool) (l : List α)
    (htot : ∀ x ∈ l, ∀ y ∈ l, le x y = true ∨ le y x = true)
    (htrans : ∀ x ∈ l, ∀ y ∈ l, ∀ z ∈ l,
      le x y = true → le y z = true → le x z = true) :
    (insertionSortBy le l).Pairwise (fun x y => le x y = true) := by
  induction l with
  | nil => simp [insertionSortBy]
  | cons a l ih =>
    simp only [insertionSortBy]
    have hmem : ∀ x ∈ insertionSortBy le l, x ∈ l :=
      fun x hx => (mem_insertionSortBy le x l).mp hx
    refine pairwise_orderedInsertBy le a _ ?_ ?_ ?_
    · exact ih (fun x hx y hy => htot x (by simp [hx]) y (by simp [hy]))
        (fun x hx y hy z hz => htrans x (by simp [hx]) y (by simp [hy]) z (by simp [hz]))
    · exact fun x hx => htot a (by simp) x (by simp [hmem x hx])
    · exact fun x hx y hy h1 h2 =>
        htrans a (by simp) x (by simp [hmem x hx]) y (by simp [hmem y hy]) h1 h2

/-! ## The log buffer -/

theorem take_append_take (a b : List α) (n m : Nat) (h : n ≤ m) :
    (a ++ b.take m).take n = (a ++ b).take n := by
  induction a generalizing n with
  | nil => simp [List.take_take, Nat.min_eq_left h]
  | cons x a ih =>
    cases n with
    | zero => simp
    | succ n => simp [ih n (Nat.le_of_succ_le h)]

theorem foldl_addLogEntry (ws init : List LogEntry) (hw : ws ≠ []) :
    ws.foldl (fun logs e => addLogEntry e logs) init = (ws.reverse ++ init).take 500 := by
  induction ws generalizing init with
  | nil => exact absurd rfl hw
  | cons w ws ih =>
    rw [List.foldl_cons]
    by_cases hws : ws = []
    · subst hws
      simp [addLogEntry]
    · rw [ih (addLogEntry w init) hws]
      unfold addLogEntry
      rw [take_append_take _ _ 500 500 (Nat.le_refl 500)]
      simp [List.reverse_cons, List.append_assoc]

/-- C7: every write prepends the new entry and truncates to 500; hence
after any nonempty sequence of writes the stored log is exactly the
newest-first concatenation of the writes and the prior contents cut to
500 entries — it never exceeds 500 entries, and the entries dropped are
precisely the oldest (the tail beyond position 500). -/
theorem log_cap_and_oldest_eviction (ws init : List LogEntry) (hw : ws ≠ []) :
    (ws.foldl (fun logs e => addLogEntry e logs) init).length ≤ 500 ∧
    ws.foldl (fun logs e => addLogEntry e logs) init = (ws.reverse ++ init).take 500 := by
  refine ⟨?_, foldl_addLogEntry ws init hw⟩
  rw [foldl_addLogEntry ws init hw]
  exact List.length_take_le 500 _

/-- Witness for C7 at a concrete pair of writes. -/
theorem log_cap_and_oldest_eviction_witness :
    ([(⟨"OnLine", "A", "w", "g"⟩ : LogEntry), ⟨"Offline", "B", "x", "s"⟩].foldl
      (fun logs e => addLogEntry e logs) []) =
      [⟨"Offline", "B", "x", "s"⟩, ⟨"OnLine", "A", "w", "g"⟩] := by
  have h := log_cap_and_oldest_eviction
    [(⟨"OnLine", "A", "w", "g"⟩ : LogEntry), ⟨"Offline", "B", "x", "s"⟩] [] (by simp)
  rw [h.2]
  rfl

/-! ## The world cache TTL -/

/-- C8: a venue-cache read never returns an entry whose age has reached
the 24-hour TTL.  First conjunct: any entry the `fetchWorldInfo` cache
check returns is strictly younger than the TTL.  Second: an entry aged
exactly the TTL (or more) makes the check return `none`, i.e. fall
through to a fresh fetch.  Third: the localStorage load path never
adopts an entry aged at least the TTL. -/
theorem worldCache_ttl_read (cache : List (String × WorldInfo)) (now : Int) (wid : String) :
    (∀ w, fetchWorldInfoCached cache now wid = some w →
      now - w.cachedAt < WORLD_CACHE_TTL) ∧
    (∀ w, (cache.find? (fun p => p.1 = wid)).map (fun p => p.2) = some w →
      WORLD_CACHE_TTL ≤ now - w.cachedAt → fetchWorldInfoCached cache now wid = none) ∧
    (∀ stored : List (String × WorldInfo), ∀ p ∈ loadWorldCache stored now,
      now - p.2.cachedAt < WORLD_CACHE_TTL) := by
  refine ⟨?_, ?_, ?_⟩
  · intro w hw
    unfold fetchWorldInfoCached at hw
    rcases hfind : (cache.find? (fun p => p.1 = wid)).map (fun p => p.2) with _ | c
    · rw [hfind] at hw
      exact Option.noConfusion hw
    · rw [hfind] at hw
      by_cases hc : now - c.cachedAt < WORLD_CACHE_TTL
      · simp only [hc, if_pos] at hw
        cases hw
        exact hc
      · simp [hc] at hw
  · intro w hfind hage
    unfold fetchWorldInfoCached
    rw [hfind]
    simp [Int.not_lt.mpr hage]
  · intro stored p hp
    have h2 := (List.mem_filter.mp hp).2
    simp only [decide_eq_true_eq] at h2
    exact h2.2

/-- Witness for C8: a fresh entry is returned and is younger than the
TTL; the same entry read exactly at its expiry time is rejected. -/
theorem worldCache_ttl_read_witness :
    (5 : Int) - (⟨"w1", "n", none, 0⟩ : WorldInfo).cachedAt < WORLD_CACHE_TTL ∧
    fetchWorldInfoCached [("w1", ⟨"w1", "n", none, 0⟩)] WORLD_CACHE_TTL "w1" = none := by
  constructor
  · exact (worldCache_ttl_read [("w1", ⟨"w1", "n", none, 0⟩)] 5 "w1").1 _ (by decide)
  · exact (worldCache_ttl_read [("w1", ⟨"w1", "n", none, 0⟩)] WORLD_CACHE_TTL "w1").2.1
      ⟨"w1", "n", none, 0⟩ (by decide) (by decide)

/-! ## Totality and closedness of the location parser -/

theorem tierOf_mem (raw : List Char) : tierOf raw ∈ tierList := by
  unfold tierOf tierList
  split_ifs <;> simp

theorem regionOf_mem (raw : List Char) : regionOf raw ∈ regionList := by
  unfold regionOf regionList
  cases h : scanCap ("~region(".toList) raw with
  | none => simp
  | some r =>
    simp only []
    split_ifs <;> simp

/-- C3 (amended): the embedded parser is a total function; it returns no
record (the source's `null`) exactly on the empty string and the three
sentinel strings, and every record it returns has an access tier and a
region drawn from the fixed closed sets. -/
theorem parseInstanceInfo_total_closed (loc : String) :
    (parseInstanceInfo loc = none ↔
      loc = "" ∨ loc = "offline" ∨ loc = "private" ∨ loc = "traveling") ∧
    (∀ i, parseInstanceInfo loc = some i → i.type ∈ tierList ∧ i.region ∈ regionList) := by
  unfold parseInstanceInfo
  split
  · rename_i h
    refine ⟨by simpa using h, ?_⟩
    intro i hi
    exact Option.noConfusion hi
  · rename_i h
    split
    · refine ⟨by simp [h], ?_⟩
      intro i hi
      injection hi with h2
      subst h2
      simp [tierList, regionList]
    · refine ⟨by simp [h], ?_⟩
      intro i hi
      injection hi with h2
      subst h2
      exact ⟨tierOf_mem _, regionOf_mem _⟩

/-- Witness for C3 at a concrete location string. -/
theorem parseInstanceInfo_total_closed_witness :
    (⟨"abc", "Friends", "JP", some "usr_x", none⟩ : InstInfo).type ∈ tierList ∧
    (⟨"abc", "Friends", "JP", some "usr_x", none⟩ : InstInfo).region ∈ regionList :=
  (parseInstanceInfo_total_closed "wrld_1:abc~friends(usr_x)~region(jp)").2 _ (by rfl)

/-- C3 counterexample to the claim as stated: on the sentinel inputs the
parser returns no record at all (`null` in the source), rather than a
fixed record with tier Private/Traveling. -/
theorem parseInstanceInfo_sentinels_return_none :
    parseInstanceInfo "offline" = none ∧ parseInstanceInfo "private" = none ∧
    parseInstanceInfo "traveling" = none :=
  ⟨rfl, rfl, rfl⟩

/-! ## The pagination loop -/

theorem fetchFriendsGo_fatal (pages : Nat → PageResult) :
    ∀ fuel off acc, fetchFriendsGo pages fuel off acc = .fatal →
      acc = [] ∧ (pages off = .httpError ∨ pages off = .exc) := by
  intro fuel
  induction fuel with
  | zero =>
    intro off acc h
    exact absurd h (by simp [fetchFriendsGo])
  | succ fuel ih =>
    intro off acc h
    unfold fetchFriendsGo at h
    cases hp : pages off with
    | httpError =>
      simp only [hp] at h
      split at h
      · rename_i hacc
        exact ⟨List.isEmpty_iff.mp hacc, Or.inl rfl⟩
      · exact absurd h (by simp)
    | exc =>
      simp only [hp] at h
      split at h
      · rename_i hacc
        exact ⟨List.isEmpty_iff.mp hacc, Or.inr rfl⟩
      · exact absurd h (by simp)
    | badJson =>
      simp only [hp] at h
      exact FetchOutcome.noConfusion h
    | ok xs =>
      simp only [hp] at h
      split at h
      · exact absurd h (by simp)
      · split at h
        · exact absurd h (by simp)
        · rename_i hne _
          rcases ih (off + 100) (acc ++ xs) h with ⟨happ, _⟩
          rcases List.append_eq_nil.mp happ with ⟨_, rfl⟩
          exact absurd rfl hne

theorem fetchFriendsGo_full (pages : Nat → PageResult) (fuel off : Nat)
    (acc xs : List Friend) (hp : pages off = .ok xs) (hlen : xs.length = 100) :
    fetchFriendsGo pages (fuel + 1) off acc =
      fetchFriendsGo pages fuel (off + 100) (acc ++ xs) := by
  have hne : xs ≠ [] := by
    intro h
    rw [h] at hlen
    exact absurd hlen (by decide)
  have h1 : xs.isEmpty = false := by
    cases xs with
    | nil => exact absurd rfl hne
    | cons a l => rfl
  conv_lhs => unfold fetchFriendsGo
  rw [hp]
  simp [h1, hlen]

theorem fetchFriendsGo_prefix (pages : Nat → PageResult) (front : List (List Friend)) :
    ∀ fuel off acc,
      (∀ xs ∈ front, xs.length = 100) →
      (∀ i, i < front.length → pages (off + 100 * i) = .ok (front.getD i [])) →
      front.length < fuel →
      fetchFriendsGo pages fuel off acc =
        fetchFriendsGo pages (fuel - front.length) (off + 100 * front.length)
          (acc ++ front.flatten) := by
  induction front with
  | nil =>
    intro fuel off acc _ _ _
    simp
  | cons xs front ih =>
    intro fuel off acc hfull hp hfuel
    obtain ⟨f2, rfl⟩ : ∃ f2, fuel = f2 + 1 :=
      ⟨fuel - 1, by simp at hfuel; omega⟩
    have h0 : pages off = .ok xs := by
      have h00 := hp 0 (by simp)
      simpa using h00
    rw [fetchFriendsGo_full pages f2 off acc xs h0 (hfull xs (by simp))]
    have hrec := ih f2 (off + 100) (acc ++ xs)
      (fun y hy => hfull y (by simp [hy]))
      (fun i hi => by
        have h3 := hp (i + 1) (by simpa using Nat.succ_lt_succ hi)
        rw [show off + 100 * (i + 1) = off + 100 + 100 * i by ring] at h3
        simpa [List.getD_cons_succ] using h3)
      (by simp at hfuel; omega)
    rw [hrec]
    have e1 : f2 + 1 - (xs :: front).length = f2 - front.length := by
      simp
    have e2 : off + 100 * (xs :: front).length = off + 100 + 100 * front.length := by
      simp [List.length_cons]
      ring
    have e3 : acc ++ (xs :: front).flatten = acc ++ xs ++ front.flatten := by
      simp [List.flatten_cons, List.append_assoc]
    rw [e1, e2, e3]

/-- C9: the paginated contacts read advances in fixed pages of 100
(offsets 0, 100, 200, ...), continuing exactly while each returned page
is full-sized.  Given `front` full pages followed by the next response:
a page failure (HTTP error or thrown fetch) is fatal iff no page had
yet succeeded (iff it happened on the very first request); after at
least one page the accumulated data is returned instead; a non-array
body stops with the accumulated data; a short or empty page stops,
returning the accumulated data plus that page. -/
theorem paginated_fetch_contract (pages : Nat → PageResult) (front : List (List Friend))
    (fuel : Nat) (hfull : ∀ xs ∈ front, xs.length = 100)
    (hp : ∀ i, i < front.length → pages (100 * i) = .ok (front.getD i []))
    (hfuel : front.length < fuel) :
    (fetchFriendsGo pages fuel 0 [] = .fatal ↔
      (pages 0 = .httpError ∨ pages 0 = .exc)) ∧
    ((pages (100 * front.length) = .httpError ∨ pages (100 * front.length) = .exc) →
      fetchFriendsGo pages fuel 0 [] =
        (if front.length = 0 then .fatal else .success front.flatten)) ∧
    (pages (100 * front.length) = .badJson →
      fetchFriendsGo pages fuel 0 [] = .success front.flatten) ∧
    (∀ ys, pages (100 * front.length) = .ok ys → ys.length < 100 →
      fetchFriendsGo pages fuel 0 [] = .success (front.flatten ++ ys)) := by
  have hpre := fetchFriendsGo_prefix pages front fuel 0 [] hfull
    (fun i hi => by simpa using hp i hi) hfuel
  simp only [List.nil_append, Nat.zero_add] at hpre
  obtain ⟨f2, hf2⟩ : ∃ f2, fuel - front.length = f2 + 1 :=
    ⟨fuel - front.length - 1, by omega⟩
  have hflne : front ≠ [] → front.flatten.isEmpty = false := by
    intro hne
    cases front with
    | nil => exact absurd rfl hne
    | cons xs front =>
      have : xs ≠ [] := by
        intro h
        have := hfull xs (by simp)
        rw [h] at this
        exact absurd this (by decide)
      cases xs with
      | nil => exact absurd rfl this
      | cons a l => rfl
  refine ⟨?_, ?_, ?_, ?_⟩
  · constructor
    · intro h
      exact (fetchFriendsGo_fatal pages fuel 0 [] h).2
    · intro h
      have hfe : front = [] := by
        cases front with
        | nil => rfl
        | cons xs front =>
          have h0 := hp 0 (by simp)
          simp only [Nat.mul_zero] at h0
          rcases h with h | h <;> rw [h0] at h <;> exact PageResult.noConfusion h
      subst hfe
      simp only [List.length_nil, Nat.mul_zero] at hpre hf2 ⊢
      rw [hpre, hf2]
      unfold fetchFriendsGo
      rcases h with h | h <;> rw [h] <;> rfl
  · intro h
    rw [hpre, hf2]
    unfold fetchFriendsGo
    by_cases hfe : front = []
    · subst hfe
      rcases h with h | h <;> rw [h] <;> simp
    · have hif : (front.length = 0) = False := by
        simp [List.length_eq_zero, hfe]
      rcases h with h | h <;> rw [h] <;> simp [hflne hfe, hif]
  · intro h
    rw [hpre, hf2]
    unfold fetchFriendsGo
    rw [h]
  · intro ys h hys
    rw [hpre, hf2]
    unfold fetchFriendsGo
    rw [h]
    by_cases hye : ys.isEmpty
    · have : ys = [] := List.isEmpty_iff.mp hye
      subst this
      simp
    · simp only [hye]
      simp [hys]

/-- Witness for C9: one full page of 100, then an HTTP error — the data
is returned, not a fatal error. -/
theorem paginated_fetch_contract_witness :
    fetchFriendsGo
      (fun off => if off = 0 then .ok (List.replicate 100 { id := "x" }) else .httpError)
      2 0 [] = .success (List.replicate 100 { id := "x" }) := by
  have h := (paginated_fetch_contract
    (fun off => if off = 0 then .ok (List.replicate 100 { id := "x" }) else .httpError)
    [List.replicate 100 { id := "x" }] 2
    (by
      intro xs hxs
      simp only [List.mem_singleton] at hxs
      subst hxs
      simp)
    (by
      intro i hi
      simp only [List.length_singleton] at hi
      interval_cases i
      simp)
    (by simp)).2.1 (Or.inl (by simp))
  simpa using h

/-! ## The snapshot refresh of location timestamps -/

theorem find?_map_overwrite (ts : TSMap) (id : String) (e : TSEntry)
    (h : (ts.find? (fun p => p.1 = id)).isSome) :
    (ts.map (fun p => if p.1 = id then (id, e) else p)).find? (fun p => p.1 = id)
      = some (id, e) := by
  induction ts with
  | nil => simp at h
  | cons kv ts ih =>
    by_cases hk : kv.1 = id
    · simp [hk]
    · have h2 : (ts.find? (fun p => p.1 = id)).isSome := by
        simpa [List.find?_cons, hk] using h
      simp [hk, ih h2]

theorem find?_map_ne (ts : TSMap) (id j : String) (e : TSEntry) (h : j ≠ id) :
    (ts.map (fun p => if p.1 = id then (id, e) else p)).find? (fun p => p.1 = j)
      = ts.find? (fun p => p.1 = j) := by
  induction ts with
  | nil => rfl
  | cons kv ts ih =>
    by_cases hk : kv.1 = id
    · have hj : ¬ (kv.1 = j) := by
        rw [hk]
        exact fun hh => h hh.symm
      simp [hk, List.find?_cons, Ne.symm h, hj, ih]
    · by_cases hj : kv.1 = j
      · simp [hk, List.find?_cons, hj, h]
      · simp [hk, List.find?_cons, hj, ih]

theorem tsGet_tsSet_self (ts : TSMap) (id : String) (e : TSEntry) :
    tsGet (tsSet ts id e) id = some e := by
  unfold tsGet tsSet
  split
  · rename_i hfind
    rw [find?_map_overwrite ts id e hfind]
    rfl
  · rename_i hfind
    rw [List.find?_append]
    rw [Option.not_isSome_iff_eq_none.mp hfind]
    simp

theorem tsGet_tsSet_ne (ts : TSMap) (id j : String) (e : TSEntry) (h : j ≠ id) :
    tsGet (tsSet ts id e) j = tsGet ts j := by
  unfold tsGet tsSet
  split
  · rw [find?_map_ne ts id j e h]
  · rw [List.find?_append]
    cases hf : ts.find? (fun p => p.1 = j) with
    | some kv => simp
    | none => simp [Ne.symm h]

theorem refreshStep_ne (now : Nat) (ts : TSMap) (f : Friend) (j : String)
    (h : f.id ≠ j) :
    tsGet (refreshStep now ts f) j = tsGet ts j := by
  unfold refreshStep
  cases tsGet ts f.id with
  | none => exact tsGet_tsSet_ne ts f.id j _ (Ne.symm h)
  | some e =>
    by_cases hl : e.location ≠ f.location
    · simp only [if_pos hl]
      exact tsGet_tsSet_ne ts f.id j _ (Ne.symm h)
    · simp only [if_neg hl]

theorem refreshFold_ne (now : Nat) (l : List Friend) :
    ∀ ts j, (∀ f ∈ l, f.id ≠ j) →
      tsGet (l.foldl (refreshStep now) ts) j = tsGet ts j := by
  induction l with
  | nil => intro ts j _; rfl
  | cons g l ih =>
    intro ts j h
    rw [List.foldl_cons, ih (refreshStep now ts g) j (fun f hf => h f (by simp [hf]))]
    exact refreshStep_ne now ts g j (h g (by simp))

theorem refreshFold_keep (now : Nat) (l : List Friend) :
    ∀ ts f e, (l.map (fun f => f.id)).Nodup → f ∈ l →
      tsGet ts f.id = some e → e.location = f.location →
      tsGet (l.foldl (refreshStep now) ts) f.id = some e := by
  induction l with
  | nil => intro ts f e _ hf; exact absurd hf (by simp)
  | cons g l ih =>
    intro ts f e hnd hf he hl
    rw [List.map_cons] at hnd
    have hnd2 := List.nodup_cons.mp hnd
    rcases List.mem_cons.mp hf with rfl | hf2
    · rw [List.foldl_cons]
      have hstep : refreshStep now ts f = ts := by
        unfold refreshStep
        rw [he]
        simp [hl.symm]
      rw [hstep]
      rw [refreshFold_ne now l ts f.id
        (fun x hx hxid => hnd2.1 (hxid ▸ List.mem_map_of_mem _ hx))]
      exact he
    · rw [List.foldl_cons]
      have hne : g.id ≠ f.id := by
        intro hh
        exact hnd2.1 (hh ▸ List.mem_map_of_mem _ hf2)
      refine ih (refreshStep now ts g) f e hnd2.2 hf2 ?_ hl
      rw [refreshStep_ne now ts g f.id hne]
      exact he

theorem refreshFold_write (now : Nat) (l : List Friend) :
    ∀ ts f, (l.map (fun f => f.id)).Nodup → f ∈ l →
      (tsGet ts f.id = none ∨ ∃ e, tsGet ts f.id = some e ∧ e.location ≠ f.location) →
      tsGet (l.foldl (refreshStep now) ts) f.id = some ⟨f.location, now⟩ := by
  induction l with
  | nil => intro ts f _ hf; exact absurd hf (by simp)
  | cons g l ih =>
    intro ts f hnd hf hc
    rw [List.map_cons] at hnd
    have hnd2 := List.nodup_cons.mp hnd
    rcases List.mem_cons.mp hf with rfl | hf2
    · rw [List.foldl_cons]
      have hstep : refreshStep now ts f = tsSet ts f.id ⟨f.location, now⟩ := by
        unfold refreshStep
        rcases hc with hn | ⟨e, he, hne⟩
        · rw [hn]
        · rw [he]
          simp [hne]
      rw [hstep]
      rw [refreshFold_ne now l _ f.id
        (fun x hx hxid => hnd2.1 (hxid ▸ List.mem_map_of_mem _ hx))]
      exact tsGet_tsSet_self ts f.id _
    · rw [List.foldl_cons]
      have hne : g.id ≠ f.id := by
        intro hh
        exact hnd2.1 (hh ▸ List.mem_map_of_mem _ hf2)
      refine ih (refreshStep now ts g) f hnd2.2 hf2 ?_
      rw [refreshStep_ne now ts g f.id hne]
      exact hc

/-- C10: a full snapshot refresh leaves the stored `joinedAt` of every
contact whose reported location matches its stored record untouched;
it writes a fresh `now` record exactly for contacts that are new or
whose location changed; and it never touches ids outside the snapshot
(part_006's refresh does not prune). -/
theorem snapshot_refresh_preserves_joinedAt (snapshot : List Friend) (ts : TSMap)
    (now : Nat) (hnd : (snapshot.map (fun f => f.id)).Nodup) :
    (∀ f ∈ snapshot, ∀ e, tsGet ts f.id = some e → e.location = f.location →
      tsGet (refreshTimestamps snapshot ts now) f.id = some e) ∧
    (∀ f ∈ snapshot,
      (tsGet ts f.id = none ∨ ∃ e, tsGet ts f.id = some e ∧ e.location ≠ f.location) →
      tsGet (refreshTimestamps snapshot ts now) f.id = some ⟨f.location, now⟩) ∧
    (∀ j, (∀ f ∈ snapshot, f.id ≠ j) →
      tsGet (refreshTimestamps snapshot ts now) j = tsGet ts j) := by
  refine ⟨?_, ?_, ?_⟩
  · intro f hf e he hl
    exact refreshFold_keep now snapshot ts f e hnd hf he hl
  · intro f hf hc
    exact refreshFold_write now snapshot ts f hnd hf hc
  · intro j hj
    exact refreshFold_ne now snapshot ts j hj

/-- Witness for C10: a contact whose reported location matches keeps its
old record; a moved contact gets a fresh one. -/
theorem snapshot_refresh_preserves_joinedAt_witness :
    tsGet (refreshTimestamps [{ id := "u1", location := "wrld_1:x" }]
      [("u1", ⟨"wrld_1:x", 7⟩)] 50) "u1" = some ⟨"wrld_1:x", 7⟩ ∧
    tsGet (refreshTimestamps [{ id := "u2", location := "wrld_2:y" }]
      [("u2", ⟨"wrld_1:x", 7⟩)] 50) "u2" = some ⟨"wrld_2:y", 50⟩ := by
  constructor
  · exact (snapshot_refresh_preserves_joinedAt
      [{ id := "u1", location := "wrld_1:x" }] [("u1", ⟨"wrld_1:x", 7⟩)] 50
      (by simp)).1 { id := "u1", location := "wrld_1:x" } (by simp)
      ⟨"wrld_1:x", 7⟩ rfl rfl
  · exact (snapshot_refresh_preserves_joinedAt
      [{ id := "u2", location := "wrld_2:y" }] [("u2", ⟨"wrld_1:x", 7⟩)] 50
      (by simp)).2.1 { id := "u2", location := "wrld_2:y" } (by simp)
      (Or.inr ⟨⟨"wrld_1:x", 7⟩, rfl, by decide⟩)

/-! ## The tier cascade against the spec's priority table -/

theorem specTier_tierOf (raw : List Char) : specTier raw (tierOf raw) := by
  unfold specTier tierOf hasTag
  split_ifs with hg hpub hplus hmem hpriv hcri hfr hh
  · exact Or.inl ⟨hg, hpub, rfl⟩
  · exact Or.inr (Or.inl ⟨hg, hpub, hplus, rfl⟩)
  · exact Or.inr (Or.inr (Or.inl ⟨hg, hpub, hplus, rfl⟩))
  · exact Or.inr (Or.inr (Or.inl ⟨hg, hpub, hplus, rfl⟩))
  · exact Or.inr (Or.inr (Or.inr (Or.inl ⟨hg, hpriv, hcri, rfl⟩)))
  · exact Or.inr (Or.inr (Or.inr (Or.inr (Or.inl ⟨hg, hpriv, hcri, rfl⟩))))
  · exact Or.inr (Or.inr (Or.inr (Or.inr (Or.inr (Or.inl ⟨hg, hpriv, hfr, rfl⟩)))))
  · exact Or.inr (Or.inr (Or.inr (Or.inr (Or.inr (Or.inr (Or.inl ⟨hg, hpriv, hfr, hh, rfl⟩))))))
  · exact Or.inr (Or.inr (Or.inr (Or.inr (Or.inr (Or.inr (Or.inr ⟨hg, hpriv, hfr, hh, rfl⟩))))))

/-- C2 (amended): for every non-sentinel location string with a colon,
the parser examines `parts[1]` — the segment between the first and
second `':'` (the entire remainder when it contains no further `':'`) —
and on that segment it resolves the access tier by the spec's priority
table, the owner id as the first `(usr_...)` capture and the group id
as the `~group(grp_...)` capture; the API route's `parseLocation`
agrees with the client parser on all three. -/
theorem location_tier_priority (loc : String)
    (h0 : ¬(loc = "" ∨ loc = "offline" ∨ loc = "private" ∨ loc = "traveling"))
    (hc : ¬ (splitOnColon loc.toList).length < 2) :
    ∃ i, parseInstanceInfo loc = some i ∧
      specTier (rawSeg loc) i.type ∧
      i.creatorId = firstUsrTag (rawSeg loc) ∧
      i.groupId = firstGrpTag (rawSeg loc) ∧
      parseLocation loc = ⟨i.type, i.creatorId, i.groupId⟩ := by
  have hp : parseInstanceInfo loc =
      some ⟨String.mk ((rawSeg loc).takeWhile (fun c => c ≠ '~')),
        tierOf (rawSeg loc), regionOf (rawSeg loc),
        firstUsrTag (rawSeg loc), firstGrpTag (rawSeg loc)⟩ := by
    unfold parseInstanceInfo
    rw [if_neg h0, if_neg hc]
  refine ⟨_, hp, specTier_tierOf (rawSeg loc), rfl, rfl, ?_⟩
  unfold parseLocation
  rw [if_neg (fun h => h0 (by tauto)), if_neg hc]

/-- Witness for C2 at a concrete friends-tier location. -/
theorem location_tier_priority_witness :
    ∃ i, parseInstanceInfo "wrld_1:abc~friends(usr_a)" = some i ∧
      specTier (rawSeg "wrld_1:abc~friends(usr_a)") i.type ∧
      i.creatorId = firstUsrTag (rawSeg "wrld_1:abc~friends(usr_a)") ∧
      i.groupId = firstGrpTag (rawSeg "wrld_1:abc~friends(usr_a)") ∧
      parseLocation "wrld_1:abc~friends(usr_a)" = ⟨i.type, i.creatorId, i.groupId⟩ :=
  location_tier_priority "wrld_1:abc~friends(usr_a)" (by decide) (by decide)

/-- C2 counterexample to the claim as stated: the claim says the parser
splits on the first `':'` and parses the entire remainder; on a location
whose remainder contains a second `':'`, the remainder carries a
`~friends(usr_a)` tag (so the claim demands tier Friends with owner
`usr_a`), but both parsers read only the segment before the second
`':'` and yield Public with no owner. -/
theorem parser_ignores_text_after_second_colon :
    hasTag "~friends(" (afterFirstColon "wrld_1:i:~friends(usr_a)").toList ∧
    parseInstanceInfo "wrld_1:i:~friends(usr_a)" =
      some ⟨"i", "Public", "US", none, none⟩ ∧
    parseLocation "wrld_1:i:~friends(usr_a)" = ⟨"Public", none, none⟩ :=
  ⟨by decide, rfl, rfl⟩

/-! ## The `friend-update` handler -/

theorem addLogEntry_one (e : LogEntry) (l : List LogEntry) :
    addLogEntry e l = e :: l.take 499 := rfl

theorem addLogEntry_two (e1 e2 : LogEntry) (l : List LogEntry) :
    addLogEntry e2 (addLogEntry e1 l) = e2 :: e1 :: l.take 498 := by
  unfold addLogEntry
  rw [show ((e1 :: l).take 500) = e1 :: l.take 499 from rfl]
  rw [show ((e2 :: e1 :: l.take 499).take 500) = e2 :: e1 :: (l.take 499).take 498 from rfl]
  rw [List.take_take, Nat.min_eq_left (by norm_num)]

/-- C6 (amended): a `friend-update` event is a complete no-op when the
contact is untracked.  When tracked, only the display name, status,
status message and icon are patched (location, favorite flag and
favorite group are unchanged); a status-change entry is prepended iff
the contact is favorited, both the old and the effective new status are
nonempty, and they differ; a status-message entry is prepended iff the
contact is favorited, the message changed, and the new message is
nonempty; each prepend truncates to 500. -/
theorem friend_update_patch_and_logs (st : RState) (userId : String) (user : UserPayload) :
    (st.friends.find? (fun f => f.id = userId) = none →
      handleFriendUpdate st userId user = st) ∧
    (∀ ef, st.friends.find? (fun f => f.id = userId) = some ef →
      (handleFriendUpdate st userId user).friends =
        st.friends.map (fun g => if g.id = userId then
          { ef with
              name := user.displayName
              status := jsOrO user.status ef.status
              statusMsg := jsCoalesce user.statusDescription ef.statusMsg
              icon := jsOrO user.userIcon (jsOrO user.profilePicOverride
                (jsOrO user.currentAvatarThumbnailImageUrl ef.icon)) }
          else g) ∧
      (∀ g ∈ (handleFriendUpdate st userId user).friends, g.id = userId →
        g.location = ef.location ∧ g.isFavorite = ef.isFavorite ∧
        g.favoriteGroup = ef.favoriteGroup) ∧
      ((handleFriendUpdate st userId user).logs =
        (if ef.isFavorite = true ∧
            ef.statusMsg ≠ jsCoalesce user.statusDescription ef.statusMsg ∧
            truthy (jsCoalesce user.statusDescription ef.statusMsg) = true then
          [(⟨"StatusMsg", user.displayName,
              jsOrS (jsCoalesce user.statusDescription ef.statusMsg) "",
              "text-purple-400"⟩ : LogEntry)]
         else []) ++
        (if ef.isFavorite = true ∧ truthy ef.status = true ∧
            truthy (jsOrO user.status ef.status) = true ∧
            ef.status ≠ jsOrO user.status ef.status then
          [(⟨"Status", user.displayName,
              (jsOrS ef.status "") ++ " to " ++ (jsOrS (jsOrO user.status ef.status) ""),
              "text-cyan-400"⟩ : LogEntry)]
         else []) ++
        (if (¬ (ef.isFavorite = true ∧ truthy ef.status = true ∧
              truthy (jsOrO user.status ef.status) = true ∧
              ef.status ≠ jsOrO user.status ef.status)) ∧
            (¬ (ef.isFavorite = true ∧
              ef.statusMsg ≠ jsCoalesce user.statusDescription ef.statusMsg ∧
              truthy (jsCoalesce user.statusDescription ef.statusMsg) = true)) then
          st.logs
         else
          st.logs.take
            (500 -
             (if ef.isFavorite = true ∧ truthy ef.status = true ∧
                truthy (jsOrO user.status ef.status) = true ∧
                ef.status ≠ jsOrO user.status ef.status then 1 else 0) -
             (if ef.isFavorite = true ∧
                ef.statusMsg ≠ jsCoalesce user.statusDescription ef.statusMsg ∧
                truthy (jsCoalesce user.statusDescription ef.statusMsg) = true then 1
              else 0))))) := by
  constructor
  · intro hfind
    unfold handleFriendUpdate
    rw [hfind]
  · intro ef hfind
    have hc1 : (ef.isFavorite && truthy ef.status && truthy (jsOrO user.status ef.status) &&
        decide (ef.status ≠ jsOrO user.status ef.status)) = true ↔
        (ef.isFavorite = true ∧ truthy ef.status = true ∧
          truthy (jsOrO user.status ef.status) = true ∧
          ef.status ≠ jsOrO user.status ef.status) := by
      simp [Bool.and_eq_true, and_assoc]
    have hc2 : (ef.isFavorite &&
        decide (ef.statusMsg ≠ jsCoalesce user.statusDescription ef.statusMsg) &&
        truthy (jsCoalesce user.statusDescription ef.statusMsg)) = true ↔
        (ef.isFavorite = true ∧
          ef.statusMsg ≠ jsCoalesce user.statusDescription ef.statusMsg ∧
          truthy (jsCoalesce user.statusDescription ef.statusMsg) = true) := by
      simp [Bool.and_eq_true, and_assoc]
    refine ⟨?_, ?_, ?_⟩
    · unfold handleFriendUpdate
      rw [hfind]
    · intro g hg hgid
      unfold handleFriendUpdate at hg
      rw [hfind] at hg
      simp only [List.mem_map] at hg
      rcases hg with ⟨g0, hg0, hge⟩
      by_cases hid : g0.id = userId
      · rw [if_pos hid] at hge
        subst hge
        exact ⟨rfl, rfl, rfl⟩
      · rw [if_neg hid] at hge
        subst hge
        exact absurd hgid hid
    · have hlogs : (handleFriendUpdate st userId user).logs =
          (if (ef.isFavorite &&
              decide (ef.statusMsg ≠ jsCoalesce user.statusDescription ef.statusMsg) &&
              truthy (jsCoalesce user.statusDescription ef.statusMsg)) = true then
            addLogEntry ⟨"StatusMsg", user.displayName,
              jsOrS (jsCoalesce user.statusDescription ef.statusMsg) "", "text-purple-400"⟩
              (if (ef.isFavorite && truthy ef.status &&
                  truthy (jsOrO user.status ef.status) &&
                  decide (ef.status ≠ jsOrO user.status ef.status)) = true then
                addLogEntry ⟨"Status", user.displayName,
                  (jsOrS ef.status "") ++ " to " ++ (jsOrS (jsOrO user.status ef.status) ""),
                  "text-cyan-400"⟩ st.logs
              else st.logs)
          else
            (if (ef.isFavorite && truthy ef.status &&
                truthy (jsOrO user.status ef.status) &&
                decide (ef.status ≠ jsOrO user.status ef.status)) = true then
              addLogEntry ⟨"Status", user.displayName,
                (jsOrS ef.status "") ++ " to " ++ (jsOrS (jsOrO user.status ef.status) ""),
                "text-cyan-400"⟩ st.logs
            else st.logs)) := by
        unfold handleFriendUpdate
        rw [hfind]
      by_cases h1 : (ef.isFavorite = true ∧ truthy ef.status = true ∧
          truthy (jsOrO user.status ef.status) = true ∧
          ef.status ≠ jsOrO user.status ef.status) <;>
        by_cases h2 : (ef.isFavorite = true ∧
          ef.statusMsg ≠ jsCoalesce user.statusDescription ef.statusMsg ∧
          truthy (jsCoalesce user.statusDescription ef.statusMsg) = true)
      · rw [hlogs, if_pos (hc2.mpr h2), if_pos (hc1.mpr h1), addLogEntry_two]
        have hnb : ¬ ((¬ (ef.isFavorite = true ∧ truthy ef.status = true ∧
              truthy (jsOrO user.status ef.status) = true ∧
              ef.status ≠ jsOrO user.status ef.status)) ∧
            (¬ (ef.isFavorite = true ∧
              ef.statusMsg ≠ jsCoalesce user.statusDescription ef.statusMsg ∧
              truthy (jsCoalesce user.statusDescription ef.statusMsg) = true))) :=
          fun hcon => hcon.1 h1
        simp only [if_pos h1, if_pos h2, if_neg hnb]
        norm_num
      · rw [hlogs, if_neg (fun hb => h2 (hc2.mp hb)), if_pos (hc1.mpr h1), addLogEntry_one]
        have hnb : ¬ ((¬ (ef.isFavorite = true ∧ truthy ef.status = true ∧
              truthy (jsOrO user.status ef.status) = true ∧
              ef.status ≠ jsOrO user.status ef.status)) ∧
            (¬ (ef.isFavorite = true ∧
              ef.statusMsg ≠ jsCoalesce user.statusDescription ef.statusMsg ∧
              truthy (jsCoalesce user.statusDescription ef.statusMsg) = true))) :=
          fun hcon => hcon.1 h1
        simp only [if_pos h1, if_neg h2, if_neg hnb]
        norm_num
      · rw [hlogs, if_pos (hc2.mpr h2), if_neg (fun hb => h1 (hc1.mp hb)), addLogEntry_one]
        have hnb : ¬ ((¬ (ef.isFavorite = true ∧ truthy ef.status = true ∧
              truthy (jsOrO user.status ef.status) = true ∧
              ef.status ≠ jsOrO user.status ef.status)) ∧
            (¬ (ef.isFavorite = true ∧
              ef.statusMsg ≠ jsCoalesce user.statusDescription ef.statusMsg ∧
              truthy (jsCoalesce user.statusDescription ef.statusMsg) = true))) :=
          fun hcon => hcon.2 h2
        simp only [if_pos h2, if_neg h1, if_neg hnb]
        norm_num
      · rw [hlogs, if_neg (fun hb => h2 (hc2.mp hb)), if_neg (fun hb => h1 (hc1.mp hb))]
        have hb : (¬ (ef.isFavorite = true ∧ truthy ef.status = true ∧
              truthy (jsOrO user.status ef.status) = true ∧
              ef.status ≠ jsOrO user.status ef.status)) ∧
            (¬ (ef.isFavorite = true ∧
              ef.statusMsg ≠ jsCoalesce user.statusDescription ef.statusMsg ∧
              truthy (jsCoalesce user.statusDescription ef.statusMsg) = true)) := And.intro h1 h2
        simp only [if_neg h1, if_neg h2, if_pos hb]
        simp

/-- Witness for C6: the untracked case is a complete no-op. -/
theorem friend_update_patch_and_logs_witness :
    handleFriendUpdate ⟨[], []⟩ "u1" ⟨"A", none, none, none, none, none⟩ = ⟨[], []⟩ :=
  (friend_update_patch_and_logs ⟨[], []⟩ "u1" ⟨"A", none, none, none, none, none⟩).1 rfl

/-- C6 counterexample to the claim as stated: for a favorited, tracked
contact, an event clearing the status message (new value the empty
string) changes the stored status message, yet no status-message log
entry is appended, because the handler also requires the new message to
be truthy. -/
theorem status_msg_clear_not_logged :
    (handleFriendUpdate sampleState "u1" ⟨"A", none, some "", none, none, none⟩).logs = [] ∧
    (handleFriendUpdate sampleState "u1"
      ⟨"A", none, some "", none, none, none⟩).friends.map (fun f => f.statusMsg) =
      [some ""] ∧
    sampleState.friends.map (fun f => (f.statusMsg, f.isFavorite)) = [(some "hi", true)] := by
  refine ⟨rfl, rfl, rfl⟩

/-! ## The grouping pass -/

theorem initGroup_id (contacts : List Friend) (f : Friend) (loc : String) :
    (initGroup contacts f loc).id = loc := rfl

theorem addMember_proj (ts : TSMap) (now : Nat) (g : InstanceGroup) (f : Friend) :
    (addMember ts now g f).id = g.id ∧
    (addMember ts now g f).worldName = g.worldName ∧
    (addMember ts now g f).userCount =
      g.userCount + (if f.isFavorite = true then 1 else 0) ∧
    (addMember ts now g f).friends =
      g.friends ++ (if f.isFavorite = true then
        [{ f with joinedAt :=
            match tsGet ts f.id with
            | some e => if e.joinedAt = 0 then now else e.joinedAt
            | none => now }] else []) ∧
    (addMember ts now g f).otherFriends =
      g.otherFriends ++ (if f.isFavorite = true then [] else
        [{ f with joinedAt :=
            match tsGet ts f.id with
            | some e => if e.joinedAt = 0 then now else e.joinedAt
            | none => now }]) := by
  unfold addMember
  by_cases hfav : f.isFavorite = true
  · simp [hfav]
  · simp [hfav]

theorem gLookup_update_self (gs : List InstanceGroup) (loc : String)
    (u : InstanceGroup → InstanceGroup) (hu : ∀ g, (u g).id = g.id) :
    gLookup loc (gs.map (fun g => if g.id = loc then u g else g)) =
      (gLookup loc gs).map u := by
  induction gs with
  | nil => rfl
  | cons h t ih =>
    unfold gLookup at ih ⊢
    by_cases hid : h.id = loc
    · simp [List.find?_cons, hid, hu h]
    · simp [List.find?_cons, hid, ih]

theorem gLookup_update_ne (gs : List InstanceGroup) (loc key : String)
    (u : InstanceGroup → InstanceGroup) (hu : ∀ g, (u g).id = g.id) (h : key ≠ loc) :
    gLookup key (gs.map (fun g => if g.id = loc then u g else g)) = gLookup key gs := by
  induction gs with
  | nil => rfl
  | cons hg t ih =>
    unfold gLookup at ih ⊢
    have hlk : loc ≠ key := fun he => h he.symm
    by_cases hid : hg.id = loc
    · have hkey : hg.id ≠ key := by
        rw [hid]
        exact hlk
      simp [List.find?_cons, hid, hu hg, hkey, hlk, ih]
    · by_cases hkey : hg.id = key
      · simp [List.find?_cons, hid, hkey, h]
      · simp [List.find?_cons, hid, hkey, ih]

theorem gLookup_stepGroup (contacts : List Friend) (ts : TSMap) (now : Nat)
    (acc : List InstanceGroup) (f : Friend) (key : String) :
    gLookup key (stepGroup contacts ts now acc f) =
      if locKey f = "offline" then gLookup key acc
      else if key = locKey f then
        some (addMember ts now
          ((gLookup key acc).getD (initGroup contacts f (locKey f))) f)
      else gLookup key acc := by
  unfold stepGroup
  by_cases hoff : locKey f = "offline"
  · simp [hoff]
  · rw [if_neg hoff, if_neg hoff]
    by_cases hkey : key = locKey f
    · rw [if_pos hkey]
      subst hkey
      by_cases hsome : (acc.find? (fun g => g.id = locKey f)).isSome
      · rw [if_pos hsome]
        rw [gLookup_update_self acc (locKey f) _ (fun g => (addMember_proj ts now g f).1)]
        obtain ⟨g, hgl⟩ := Option.isSome_iff_exists.mp hsome
        have hgl2 : gLookup (locKey f) acc = some g := hgl
        rw [hgl2]
        rfl
      · rw [if_neg hsome]
        rw [gLookup_update_self (acc ++ [initGroup contacts f (locKey f)]) (locKey f) _
          (fun g => (addMember_proj ts now g f).1)]
        have hnone : gLookup (locKey f) acc = none := by
          unfold gLookup
          exact Option.not_isSome_iff_eq_none.mp hsome
        unfold gLookup
        rw [List.find?_append]
        unfold gLookup at hnone
        rw [hnone]
        have hself : decide ((initGroup contacts f (locKey f)).id = locKey f) = true := by
          simp [initGroup_id]
        simp [List.find?, hself]
    · rw [if_neg hkey]
      by_cases hsome : (acc.find? (fun g => g.id = locKey f)).isSome
      · rw [if_pos hsome]
        exact gLookup_update_ne acc (locKey f) key _
          (fun g => (addMember_proj ts now g f).1) hkey
      · rw [if_neg hsome]
        rw [gLookup_update_ne (acc ++ [initGroup contacts f (locKey f)]) (locKey f) key _
          (fun g => (addMember_proj ts now g f).1) hkey]
        unfold gLookup
        rw [List.find?_append]
        cases hfa : acc.find? (fun g => decide (g.id = key)) with
        | some g => simp
        | none =>
          have hne2 : (initGroup contacts f (locKey f)).id ≠ key :=
            fun he => hkey he.symm
          simp [List.find?_cons, hne2]

theorem addMember_userCount (ts : TSMap) (now : Nat) (g : InstanceGroup) (f : Friend) :
    (addMember ts now g f).userCount =
      g.userCount + (if f.isFavorite = true then 1 else 0) :=
  (addMember_proj ts now g f).2.2.1

theorem gCount_stepGroup (contacts : List Friend) (ts : TSMap) (now : Nat)
    (acc : List InstanceGroup) (f : Friend) (key : String) (hkey : key ≠ "offline") :
    gCount key (stepGroup contacts ts now acc f) =
      gCount key acc + (if f.isFavorite = true ∧ locKey f = key then 1 else 0) := by
  have hstep := gLookup_stepGroup contacts ts now acc f key
  by_cases hoff : locKey f = "offline"
  · rw [if_pos hoff] at hstep
    have hC : ¬ (f.isFavorite = true ∧ locKey f = key) :=
      fun hcon => hkey (by rw [← hcon.2, hoff])
    unfold gCount
    rw [hstep, if_neg hC]
    omega
  · rw [if_neg hoff] at hstep
    by_cases hk : key = locKey f
    · rw [if_pos hk] at hstep
      unfold gCount
      rw [hstep]
      cases hgl : gLookup key acc with
      | some g =>
        simp only [hgl, Option.getD_some, addMember_userCount]
        by_cases hfav : f.isFavorite = true
        · rw [if_pos hfav, if_pos ⟨hfav, hk.symm⟩]
        · rw [if_neg hfav, if_neg (fun hcon => hfav hcon.1)]
      | none =>
        simp only [hgl, Option.getD_none, addMember_userCount]
        have hz : (initGroup contacts f (locKey f)).userCount = 0 := rfl
        rw [hz]
        by_cases hfav : f.isFavorite = true
        · rw [if_pos hfav, if_pos ⟨hfav, hk.symm⟩]
        · rw [if_neg hfav, if_neg (fun hcon => hfav hcon.1)]
    · rw [if_neg hk] at hstep
      unfold gCount
      rw [hstep, if_neg (fun hcon => hk hcon.2.symm)]
      omega

theorem favAt_nil (key : String) : favAt key [] = 0 := rfl

theorem favAt_cons (key : String) (f : Friend) (l : List Friend) :
    favAt key (f :: l) =
      (if f.isFavorite = true ∧ locKey f = key then 1 else 0) + favAt key l := by
  unfold favAt
  rw [List.filter_cons]
  by_cases h : f.isFavorite = true ∧ locKey f = key
  · rw [if_pos (by simp [h.1, h.2]), if_pos h]
    simp [Nat.add_comm]
  · rw [if_neg (by
      simp only [Bool.and_eq_true, decide_eq_true_eq]
      exact fun hb => h ⟨hb.1, hb.2⟩), if_neg h]
    simp

theorem gCount_buildGrouped (contacts : List Friend) (ts : TSMap) (now : Nat) :
    ∀ (l : List Friend) (acc : List InstanceGroup) (key : String), key ≠ "offline" →
      gCount key (l.foldl (stepGroup contacts ts now) acc) = gCount key acc + favAt key l := by
  intro l
  induction l with
  | nil =>
    intro acc key _
    simp [favAt_nil]
  | cons f l ih =>
    intro acc key hkey
    rw [List.foldl_cons, ih (stepGroup contacts ts now acc f) key hkey,
      gCount_stepGroup contacts ts now acc f key hkey, favAt_cons]
    omega

theorem gLookup_isSome_buildGrouped (contacts : List Friend) (ts : TSMap) (now : Nat) :
    ∀ (l : List Friend) (acc : List InstanceGroup) (key : String), key ≠ "offline" →
      ((gLookup key (l.foldl (stepGroup contacts ts now) acc)).isSome = true ↔
        (gLookup key acc).isSome = true ∨ ∃ f ∈ l, locKey f = key) := by
  intro l
  induction l with
  | nil =>
    intro acc key _
    simp
  | cons f l ih =>
    intro acc key hkey
    rw [List.foldl_cons, ih (stepGroup contacts ts now acc f) key hkey]
    have hstep := gLookup_stepGroup contacts ts now acc f key
    constructor
    · intro h
      rcases h with h | ⟨f2, hf2, hloc⟩
      · rw [hstep] at h
        by_cases hoff : locKey f = "offline"
        · rw [if_pos hoff] at h
          exact Or.inl h
        · rw [if_neg hoff] at h
          by_cases hk : key = locKey f
          · exact Or.inr ⟨f, by simp, hk.symm⟩
          · rw [if_neg hk] at h
            exact Or.inl h
      · exact Or.inr ⟨f2, by simp [hf2], hloc⟩
    · intro h
      rcases h with h | ⟨f2, hf2, hloc⟩
      · left
        rw [hstep]
        by_cases hoff : locKey f = "offline"
        · rw [if_pos hoff]
          exact h
        · rw [if_neg hoff]
          by_cases hk : key = locKey f
          · rw [if_pos hk]
            rfl
          · rw [if_neg hk]
            exact h
      · rcases List.mem_cons.mp hf2 with rfl | hmem
        · left
          rw [hstep]
          have hoff : ¬ locKey f2 = "offline" := by
            rw [hloc]
            exact hkey
          rw [if_neg hoff, if_pos hloc.symm]
          rfl
        · exact Or.inr ⟨f2, hmem, hloc⟩

theorem stepGroup_ids (contacts : List Friend) (ts : TSMap) (now : Nat)
    (acc : List InstanceGroup) (f : Friend) :
    (stepGroup contacts ts now acc f).map (fun g => g.id) =
      (if locKey f = "offline" then acc.map (fun g => g.id)
       else if (acc.find? (fun g => g.id = locKey f)).isSome then acc.map (fun g => g.id)
       else acc.map (fun g => g.id) ++ [locKey f]) := by
  unfold stepGroup
  by_cases hoff : locKey f = "offline"
  · simp [hoff]
  · rw [if_neg hoff, if_neg hoff]
    have hmapid : ∀ gs : List InstanceGroup,
        (gs.map (fun g => if g.id = locKey f then addMember ts now g f else g)).map
          (fun g => g.id) = gs.map (fun g => g.id) := by
      intro gs
      rw [List.map_map]
      refine List.map_congr_left ?_
      intro g _
      by_cases hid : g.id = locKey f
      · simp [Function.comp, hid, (addMember_proj ts now g f).1]
      · simp [Function.comp, hid]
    by_cases hsome : (acc.find? (fun g => g.id = locKey f)).isSome
    · rw [if_pos hsome, if_pos hsome, hmapid]
    · rw [if_neg hsome, if_neg hsome, hmapid]
      simp [initGroup_id]

theorem buildGrouped_nodup (contacts : List Friend) (ts : TSMap) (now : Nat) :
    ∀ (l : List Friend) (acc : List InstanceGroup), ((acc.map (fun g => g.id)).Nodup) →
      (((l.foldl (stepGroup contacts ts now) acc).map (fun g => g.id)).Nodup) := by
  intro l
  induction l with
  | nil => intro acc h; exact h
  | cons f l ih =>
    intro acc h
    rw [List.foldl_cons]
    refine ih (stepGroup contacts ts now acc f) ?_
    rw [stepGroup_ids]
    by_cases hoff : locKey f = "offline"
    · rw [if_pos hoff]
      exact h
    · rw [if_neg hoff]
      by_cases hsome : (acc.find? (fun g => g.id = locKey f)).isSome
      · rw [if_pos hsome]
        exact h
      · rw [if_neg hsome]
        have hnotin : locKey f ∉ acc.map (fun g => g.id) := by
          intro hmem
          rcases List.mem_map.mp hmem with ⟨g, hg, hgid⟩
          have := List.find?_eq_none.mp (Option.not_isSome_iff_eq_none.mp hsome) g hg
          simp [hgid] at this
        simp [List.nodup_append, h, hnotin]

theorem gLookup_of_mem_nodup (gs : List InstanceGroup)
    (hnd : (gs.map (fun g => g.id)).Nodup) (g : InstanceGroup) (hg : g ∈ gs) :
    gLookup g.id gs = some g := by
  induction gs with
  | nil => cases hg
  | cons h t ih =>
    rw [List.map_cons] at hnd
    have hnd2 := List.nodup_cons.mp hnd
    rcases List.mem_cons.mp hg with rfl | hmem
    · unfold gLookup
      rw [List.find?_cons]
      simp
    · have hne : ¬ (h.id = g.id) :=
        fun he => hnd2.1 (he ▸ List.mem_map_of_mem _ hmem)
      have hd : decide (h.id = g.id) = false := by simp [hne]
      unfold gLookup
      rw [List.find?_cons, hd]
      exact ih hnd2.2 hmem

theorem initGroup_ok (contacts : List Friend) (f : Friend) (loc : String)
    (hloc : locKey f = loc) (hoff : loc ≠ "offline") :
    groupOK contacts (initGroup contacts f loc) := by
  have hworld : loc = "traveling" → (initGroup contacts f loc).worldName = "Traveling" := by
    intro ht
    unfold initGroup
    simp [ht]
  have hne : loc ≠ "" := by
    intro he
    subst he
    unfold locKey at hloc
    by_cases hl : f.location = ""
    · rw [if_pos hl] at hloc
      exact absurd hloc (by decide)
    · rw [if_neg hl] at hloc
      exact hl hloc
  refine ⟨rfl, hoff, hne, ?_, ?_, ?_, hworld⟩
  · intro fw hfw
    exact absurd hfw (by simp [initGroup])
  · intro fw hfw
    exact absurd hfw (by simp [initGroup])
  · intro hpos
    exact absurd hpos (by simp [initGroup])

theorem addMember_ok (contacts : List Friend) (ts : TSMap) (now : Nat)
    (g : InstanceGroup) (f : Friend) (hg : groupOK contacts g) (hf : f ∈ contacts)
    (hid : g.id = locKey f) (hoff : locKey f ≠ "offline") :
    groupOK contacts (addMember ts now g f) := by
  obtain ⟨hcount, hoffg, hneg, hfav, hother, hex, hworld⟩ := hg
  obtain ⟨hidp, hworldp, hcountp, hfriendsp, hotherp⟩ := addMember_proj ts now g f
  have hlocf : f.location = g.id := by
    rw [hid]
    unfold locKey
    unfold locKey at hoff
    by_cases hl : f.location = ""
    · rw [if_pos hl] at hoff
      exact absurd rfl hoff
    · rw [if_neg hl]
  refine ⟨?_, hidp ▸ hoffg, hidp ▸ hneg, ?_, ?_, ?_, ?_⟩
  · rw [hcountp, hfriendsp, List.length_append, hcount]
    by_cases hfv : f.isFavorite = true
    · simp [hfv]
    · simp [hfv]
  · intro fw hfw
    rw [hfriendsp] at hfw
    rcases List.mem_append.mp hfw with hl | hr
    · exact hfav fw hl
    · by_cases hfv : f.isFavorite = true
      · rw [if_pos hfv] at hr
        rcases List.mem_singleton.mp hr with rfl
        exact hfv
      · rw [if_neg hfv] at hr
        exact absurd hr (by simp)
  · intro fw hfw
    rw [hotherp] at hfw
    rcases List.mem_append.mp hfw with hl | hr
    · exact hother fw hl
    · by_cases hfv : f.isFavorite = true
      · rw [if_pos hfv] at hr
        exact absurd hr (by simp)
      · rw [if_neg hfv] at hr
        rcases List.mem_singleton.mp hr with rfl
        simp [Bool.not_eq_true] at hfv
        exact hfv
  · intro hpos
    by_cases hfv : f.isFavorite = true
    · exact ⟨f, hf, hfv, by rw [hlocf, hidp]⟩
    · rw [hcountp, if_neg hfv] at hpos
      obtain ⟨f0, hf0, hfav0, hloc0⟩ := hex (by omega)
      exact ⟨f0, hf0, hfav0, by rw [hloc0, hidp]⟩
  · intro ht
    rw [hidp] at ht
    rw [hworldp]
    exact hworld ht

theorem stepGroup_ok (contacts : List Friend) (ts : TSMap) (now : Nat)
    (acc : List InstanceGroup) (f : Friend) (hf : f ∈ contacts)
    (hacc : ∀ g ∈ acc, groupOK contacts g) :
    ∀ g ∈ stepGroup contacts ts now acc f, groupOK contacts g := by
  intro g hg
  unfold stepGroup at hg
  by_cases hoff : locKey f = "offline"
  · rw [if_pos hoff] at hg
    exact hacc g hg
  · rw [if_neg hoff] at hg
    have hacc1 : ∀ g2 ∈ (if (acc.find? (fun g2 => g2.id = locKey f)).isSome then acc
        else acc ++ [initGroup contacts f (locKey f)]), groupOK contacts g2 := by
      intro g2 hg2
      by_cases hsome : (acc.find? (fun g2 => g2.id = locKey f)).isSome
      · rw [if_pos hsome] at hg2
        exact hacc g2 hg2
      · rw [if_neg hsome] at hg2
        rcases List.mem_append.mp hg2 with hl | hr
        · exact hacc g2 hl
        · rcases List.mem_singleton.mp hr with rfl
          exact initGroup_ok contacts f (locKey f) rfl hoff
    rcases List.mem_map.mp hg with ⟨g0, hg0, hge⟩
    by_cases hid : g0.id = locKey f
    · rw [if_pos hid] at hge
      subst hge
      exact addMember_ok contacts ts now g0 f (hacc1 g0 hg0) hf hid hoff
    · rw [if_neg hid] at hge
      subst hge
      exact hacc1 g0 hg0

theorem buildGrouped_ok (contacts : List Friend) (ts : TSMap) (now : Nat) :
    ∀ (l : List Friend) (acc : List InstanceGroup), (∀ f ∈ l, f ∈ contacts) →
      (∀ g ∈ acc, groupOK contacts g) →
      ∀ g ∈ l.foldl (stepGroup contacts ts now) acc, groupOK contacts g := by
  intro l
  induction l with
  | nil =>
    intro acc _ hacc g hg
    exact hacc g hg
  | cons f l ih =>
    intro acc hl hacc g hg
    rw [List.foldl_cons] at hg
    exact ih (stepGroup contacts ts now acc f) (fun x hx => hl x (by simp [hx]))
      (stepGroup_ok contacts ts now acc f (hl f (by simp)) hacc) g hg

theorem sortWithin_proj (now : Nat) (g : InstanceGroup) :
    (sortWithin now g).id = g.id ∧ (sortWithin now g).userCount = g.userCount ∧
    (sortWithin now g).worldName = g.worldName ∧
    (sortWithin now g).minFavoriteGroup = g.minFavoriteGroup :=
  ⟨rfl, rfl, rfl, rfl⟩

theorem sortWithin_members (now : Nat) (g : InstanceGroup) (x : Friend) :
    (x ∈ (sortWithin now g).friends ↔ x ∈ g.friends) ∧
    (x ∈ (sortWithin now g).otherFriends ↔ x ∈ g.otherFriends) :=
  ⟨mem_insertionSortBy _ x g.friends, mem_insertionSortBy _ x g.otherFriends⟩

theorem sortWithin_friends_length (now : Nat) (g : InstanceGroup) :
    (sortWithin now g).friends.length = g.friends.length :=
  length_insertionSortBy _ g.friends

theorem sortWithin_ok (contacts : List Friend) (now : Nat) (g : InstanceGroup)
    (h : groupOK contacts g) : groupOK contacts (sortWithin now g) := by
  obtain ⟨hcount, hoffg, hneg, hfav, hother, hex, hworld⟩ := h
  refine ⟨?_, hoffg, hneg, ?_, ?_, ?_, hworld⟩
  · rw [sortWithin_friends_length]
    exact hcount
  · intro fw hfw
    exact hfav fw ((sortWithin_members now g fw).1.mp hfw)
  · intro fw hfw
    exact hother fw ((sortWithin_members now g fw).2.mp hfw)
  · exact hex

/-- C1: for every contact-map state, an instance group appears in the
rebuilt output iff its grouping key is a real location (not the offline
pseudo-state, which the code gives to an empty location as well) held
by at least one favorited contact; in every output group the favorite
count is positive and counts exactly the favorited members, and
non-favorited contacts sit only in `otherFriends`. -/
theorem instance_iff_favorited_occupant (contacts : List Friend) (ts : TSMap) (now : Nat)
    (key : String) :
    ((∃ g ∈ rebuildInstances contacts ts now, g.id = key) ↔
      key ≠ "offline" ∧ key ≠ "" ∧ ∃ f ∈ contacts, f.isFavorite = true ∧ f.location = key) ∧
    (∀ g ∈ rebuildInstances contacts ts now,
      0 < g.userCount ∧ g.userCount = g.friends.length ∧
      (∀ fw ∈ g.friends, fw.isFavorite = true) ∧
      (∀ fw ∈ g.otherFriends, fw.isFavorite = false)) := by
  have hOK : ∀ g ∈ buildGrouped contacts ts now, groupOK contacts g :=
    buildGrouped_ok contacts ts now contacts [] (fun f hf => hf) (by simp)
  have hmem : ∀ g, g ∈ rebuildInstances contacts ts now ↔
      (g ∈ (buildGrouped contacts ts now).map (sortWithin now) ∧ 0 < g.userCount) := by
    intro g
    unfold rebuildInstances
    rw [mem_insertionSortBy, List.mem_filter]
    simp
  constructor
  · constructor
    · rintro ⟨g, hgR, rfl⟩
      rcases (hmem g).mp hgR with ⟨hgmap, hgpos⟩
      rcases List.mem_map.mp hgmap with ⟨g0, hg0, rfl⟩
      have hok0 := hOK g0 hg0
      have hpos0 : 0 < g0.userCount := by
        rw [← (sortWithin_proj now g0).2.1]
        exact hgpos
      obtain ⟨f, hf, hfav, hloc⟩ := hok0.2.2.2.2.2.1 hpos0
      exact ⟨(sortWithin_proj now g0).1 ▸ hok0.2.1,
        (sortWithin_proj now g0).1 ▸ hok0.2.2.1,
        f, hf, hfav, by rw [hloc, (sortWithin_proj now g0).1]⟩
    · rintro ⟨hko, hke, f, hf, hfav, hloc⟩
      have hlockey : locKey f = key := by
        unfold locKey
        rw [hloc, if_neg hke]
      have hfmem : f ∈ contacts.filter (fun f2 => f2.isFavorite && locKey f2 = key) :=
        List.mem_filter.mpr ⟨hf, by simp [hfav, hlockey]⟩
      have hfavpos : 0 < favAt key contacts :=
        List.length_pos_of_mem hfmem
      have hcnt : gCount key (buildGrouped contacts ts now) = favAt key contacts := by
        have hfold := gCount_buildGrouped contacts ts now contacts [] key hko
        unfold buildGrouped
        rw [hfold]
        have h0 : gCount key [] = 0 := rfl
        rw [h0]
        omega
      have hcpos : 0 < gCount key (buildGrouped contacts ts now) := by
        rw [hcnt]
        exact hfavpos
      unfold gCount at hcpos
      cases hgl : gLookup key (buildGrouped contacts ts now) with
      | none =>
        rw [hgl] at hcpos
        exact absurd hcpos (by simp)
      | some g0 =>
        rw [hgl] at hcpos
        have hg0mem : g0 ∈ buildGrouped contacts ts now :=
          List.mem_of_find?_eq_some hgl
        have hg0id : g0.id = key := by
          have := List.find?_some hgl
          simpa using this
        refine ⟨sortWithin now g0, ?_, by rw [(sortWithin_proj now g0).1, hg0id]⟩
        rw [hmem]
        exact ⟨List.mem_map_of_mem _ hg0mem,
          by rw [(sortWithin_proj now g0).2.1]; exact hcpos⟩
  · intro g hgR
    rcases (hmem g).mp hgR with ⟨hgmap, hgpos⟩
    rcases List.mem_map.mp hgmap with ⟨g0, hg0, rfl⟩
    have hok := sortWithin_ok contacts now g0 (hOK g0 hg0)
    exact ⟨hgpos, hok.1, hok.2.2.2.1, hok.2.2.2.2.1⟩

/-- Witness for C1: one favorited contact at a concrete location makes
exactly that instance appear. -/
theorem instance_iff_favorited_occupant_witness :
    ∃ g ∈ rebuildInstances [{ id := "u1", isFavorite := true, location := "wrld_1:a" }] [] 5,
      g.id = "wrld_1:a" :=
  (instance_iff_favorited_occupant
    [{ id := "u1", isFavorite := true, location := "wrld_1:a" }] [] 5 "wrld_1:a").1.mpr
    ⟨by decide, by decide,
     { id := "u1", isFavorite := true, location := "wrld_1:a" }, by simp, rfl, rfl⟩

/-! ## Clock-independence of the rebuild -/

theorem addMember_congr (ts : TSMap) (n1 n2 : Nat) (g : InstanceGroup) (f : Friend)
    (h : ∃ e, tsGet ts f.id = some e ∧ e.joinedAt ≠ 0) :
    addMember ts n1 g f = addMember ts n2 g f := by
  obtain ⟨e, he, hne⟩ := h
  unfold addMember
  rw [he]
  simp [hne]

theorem stepGroup_congr (contacts : List Friend) (ts : TSMap) (n1 n2 : Nat)
    (acc : List InstanceGroup) (f : Friend)
    (hf : locKey f ≠ "offline" → ∃ e, tsGet ts f.id = some e ∧ e.joinedAt ≠ 0) :
    stepGroup contacts ts n1 acc f = stepGroup contacts ts n2 acc f := by
  unfold stepGroup
  by_cases hoff : locKey f = "offline"
  · simp [hoff]
  · rw [if_neg hoff, if_neg hoff]
    have hfun : (fun g => if g.id = locKey f then addMember ts n1 g f else g) =
        (fun g => if g.id = locKey f then addMember ts n2 g f else g) := by
      funext g
      by_cases hid : g.id = locKey f
      · rw [if_pos hid, if_pos hid, addMember_congr ts n1 n2 g f (hf hoff)]
      · rw [if_neg hid, if_neg hid]
    rw [hfun]

theorem buildGrouped_congr (contacts : List Friend) (ts : TSMap) (n1 n2 : Nat)
    (H : ∀ f ∈ contacts, locKey f ≠ "offline" →
      ∃ e, tsGet ts f.id = some e ∧ e.joinedAt ≠ 0) :
    buildGrouped contacts ts n1 = buildGrouped contacts ts n2 := by
  unfold buildGrouped
  suffices h : ∀ (l : List Friend) (acc : List InstanceGroup), (∀ f ∈ l, f ∈ contacts) →
      l.foldl (stepGroup contacts ts n1) acc = l.foldl (stepGroup contacts ts n2) acc by
    exact h contacts [] (fun f hf => hf)
  intro l
  induction l with
  | nil =>
    intro acc _
    rfl
  | cons f l ih =>
    intro acc hl
    rw [List.foldl_cons, List.foldl_cons,
      stepGroup_congr contacts ts n1 n2 acc f (H f (hl f (by simp))),
      ih _ (fun x hx => hl x (by simp [hx]))]

theorem addMember_nonzero (ts : TSMap) (now : Nat) (g : InstanceGroup) (f : Friend)
    (hg : membersNonzero g) (hf : ∃ e, tsGet ts f.id = some e ∧ e.joinedAt ≠ 0) :
    membersNonzero (addMember ts now g f) := by
  obtain ⟨e, he, hne⟩ := hf
  obtain ⟨hfr, hot⟩ := hg
  obtain ⟨_, _, _, hfriendsp, hotherp⟩ := addMember_proj ts now g f
  constructor
  · intro fw hfw
    rw [hfriendsp] at hfw
    rcases List.mem_append.mp hfw with hl | hr
    · exact hfr fw hl
    · by_cases hfv : f.isFavorite = true
      · rw [if_pos hfv] at hr
        rcases List.mem_singleton.mp hr with rfl
        simp [he, hne]
      · rw [if_neg hfv] at hr
        exact absurd hr (by simp)
  · intro fw hfw
    rw [hotherp] at hfw
    rcases List.mem_append.mp hfw with hl | hr
    · exact hot fw hl
    · by_cases hfv : f.isFavorite = true
      · rw [if_pos hfv] at hr
        exact absurd hr (by simp)
      · rw [if_neg hfv] at hr
        rcases List.mem_singleton.mp hr with rfl
        simp [he, hne]

theorem stepGroup_nonzero (contacts : List Friend) (ts : TSMap) (now : Nat)
    (acc : List InstanceGroup) (f : Friend)
    (hacc : ∀ g ∈ acc, membersNonzero g)
    (hf : locKey f ≠ "offline" → ∃ e, tsGet ts f.id = some e ∧ e.joinedAt ≠ 0) :
    ∀ g ∈ stepGroup contacts ts now acc f, membersNonzero g := by
  intro g hg
  unfold stepGroup at hg
  by_cases hoff : locKey f = "offline"
  · rw [if_pos hoff] at hg
    exact hacc g hg
  · rw [if_neg hoff] at hg
    have hacc1 : ∀ g2 ∈ (if (acc.find? (fun g2 => g2.id = locKey f)).isSome then acc
        else acc ++ [initGroup contacts f (locKey f)]), membersNonzero g2 := by
      intro g2 hg2
      by_cases hsome : (acc.find? (fun g2 => g2.id = locKey f)).isSome
      · rw [if_pos hsome] at hg2
        exact hacc g2 hg2
      · rw [if_neg hsome] at hg2
        rcases List.mem_append.mp hg2 with hl | hr
        · exact hacc g2 hl
        · rcases List.mem_singleton.mp hr with rfl
          exact ⟨fun fw hfw => absurd hfw (by simp [initGroup]),
            fun fw hfw => absurd hfw (by simp [initGroup])⟩
    rcases List.mem_map.mp hg with ⟨g0, hg0, hge⟩
    by_cases hid : g0.id = locKey f
    · rw [if_pos hid] at hge
      subst hge
      exact addMember_nonzero ts now g0 f (hacc1 g0 hg0) (hf hoff)
    · rw [if_neg hid] at hge
      subst hge
      exact hacc1 g0 hg0

theorem buildGrouped_nonzero (contacts : List Friend) (ts : TSMap) (now : Nat)
    (H : ∀ f ∈ contacts, locKey f ≠ "offline" →
      ∃ e, tsGet ts f.id = some e ∧ e.joinedAt ≠ 0) :
    ∀ g ∈ buildGrouped contacts ts now, membersNonzero g := by
  unfold buildGrouped
  suffices h : ∀ (l : List Friend) (acc : List InstanceGroup), (∀ f ∈ l, f ∈ contacts) →
      (∀ g ∈ acc, membersNonzero g) →
      ∀ g ∈ l.foldl (stepGroup contacts ts now) acc, membersNonzero g by
    exact h contacts [] (fun f hf => hf) (by simp)
  intro l
  induction l with
  | nil =>
    intro acc _ hacc g hg
    exact hacc g hg
  | cons f l ih =>
    intro acc hl hacc g hg
    rw [List.foldl_cons] at hg
    exact ih (stepGroup contacts ts now acc f) (fun x hx => hl x (by simp [hx]))
      (stepGroup_nonzero contacts ts now acc f hacc (H f (hl f (by simp)))) g hg

theorem friendCmp_congr (n1 n2 : Nat) (g : InstanceGroup) (a b : Friend)
    (ha : a.joinedAt ≠ 0) (hb : b.joinedAt ≠ 0) :
    friendCmp n1 g a b = friendCmp n2 g a b := by
  unfold friendCmp
  simp [ha, hb]

theorem sortWithin_congr (n1 n2 : Nat) (g : InstanceGroup) (h : membersNonzero g) :
    sortWithin n1 g = sortWithin n2 g := by
  unfold sortWithin
  rw [insertionSortBy_congr (fun a b => decide (friendCmp n1 g a b ≤ 0))
      (fun a b => decide (friendCmp n2 g a b ≤ 0)) g.friends
      (fun a ha b hb => by
        simp only []
        rw [friendCmp_congr n1 n2 g a b (h.1 a ha) (h.1 b hb)]),
    insertionSortBy_congr (fun a b => decide (friendCmp n1 g a b ≤ 0))
      (fun a b => decide (friendCmp n2 g a b ≤ 0)) g.otherFriends
      (fun a ha b hb => by
        simp only []
        rw [friendCmp_congr n1 n2 g a b (h.2 a ha) (h.2 b hb)])]

theorem oldestJoin_congr (n1 n2 : Nat) (g : InstanceGroup) (hne : g.friends ≠ [])
    (h : ∀ fw ∈ g.friends, fw.joinedAt ≠ 0) : oldestJoin n1 g = oldestJoin n2 g := by
  unfold oldestJoin
  have hmap : g.friends.map (fun f => if f.joinedAt = 0 then n1 else f.joinedAt) =
      g.friends.map (fun f => if f.joinedAt = 0 then n2 else f.joinedAt) :=
    List.map_congr_left (fun fw hfw => by simp [h fw hfw])
  rw [hmap]
  cases hf : g.friends with
  | nil => exact absurd hf hne
  | cons a l => simp [hf]

theorem instCmp_congr (n1 n2 : Nat) (a b : InstanceGroup)
    (ha : a.friends ≠ [] ∧ ∀ fw ∈ a.friends, fw.joinedAt ≠ 0)
    (hb : b.friends ≠ [] ∧ ∀ fw ∈ b.friends, fw.joinedAt ≠ 0) :
    instCmp n1 a b = instCmp n2 a b := by
  unfold instCmp
  rw [oldestJoin_congr n1 n2 a ha.1 ha.2, oldestJoin_congr n1 n2 b hb.1 hb.2]

/-- C4 (amended): the rebuild is a pure function of the contact map, the
location-timestamp map and the clock reading; whenever every present
(non-offline) contact has a stored nonzero timestamp record — which the
event handlers and the snapshot refresh maintain — the clock reading is
irrelevant, so running the rebuild twice on the same unmutated state
yields identical output. -/
theorem rebuild_clock_independent (contacts : List Friend) (ts : TSMap) (n1 n2 : Nat)
    (H : ∀ f ∈ contacts, f.location ≠ "" → f.location ≠ "offline" →
      ∃ e, tsGet ts f.id = some e ∧ e.joinedAt ≠ 0) :
    rebuildInstances contacts ts n1 = rebuildInstances contacts ts n2 := by
  have H2 : ∀ f ∈ contacts, locKey f ≠ "offline" →
      ∃ e, tsGet ts f.id = some e ∧ e.joinedAt ≠ 0 := by
    intro f hf hoff
    unfold locKey at hoff
    by_cases hl : f.location = ""
    · rw [if_pos hl] at hoff
      exact absurd rfl hoff
    · rw [if_neg hl] at hoff
      exact H f hf hl hoff
  have hG : buildGrouped contacts ts n1 = buildGrouped contacts ts n2 :=
    buildGrouped_congr contacts ts n1 n2 H2
  have hNZ : ∀ g ∈ buildGrouped contacts ts n2, membersNonzero g :=
    buildGrouped_nonzero contacts ts n2 H2
  have hOK : ∀ g ∈ buildGrouped contacts ts n2, groupOK contacts g :=
    buildGrouped_ok contacts ts n2 contacts [] (fun f hf => hf) (by simp)
  unfold rebuildInstances
  rw [hG]
  rw [List.map_congr_left (fun g hg => sortWithin_congr n1 n2 g (hNZ g hg))]
  refine insertionSortBy_congr _ _ _ ?_
  intro a hafilter b hbfilter
  have hprops : ∀ x, x ∈ ((buildGrouped contacts ts n2).map (sortWithin n2)).filter
      (fun g => 0 < g.userCount) →
      x.friends ≠ [] ∧ ∀ fw ∈ x.friends, fw.joinedAt ≠ 0 := by
    intro x hx
    obtain ⟨hxmem, hxpos⟩ := List.mem_filter.mp hx
    rcases List.mem_map.mp hxmem with ⟨g0, hg0, rfl⟩
    have hok := hOK g0 hg0
    have hnz := hNZ g0 hg0
    have hxpos2 : 0 < (sortWithin n2 g0).userCount := by simpa using hxpos
    constructor
    · intro hnil
      have hlen : (sortWithin n2 g0).friends.length = g0.friends.length :=
        sortWithin_friends_length n2 g0
      rw [hnil] at hlen
      rw [(sortWithin_proj n2 g0).2.1, hok.1, ← hlen] at hxpos2
      exact absurd hxpos2 (by simp)
    · intro fw hfw
      exact hnz.1 fw ((sortWithin_members n2 g0 fw).1.mp hfw)
  rw [instCmp_congr n1 n2 a b (hprops a hafilter) (hprops b hbfilter)]

/-- Witness for C4: with a timestamped contact, rebuilds at two clock
readings agree. -/
theorem rebuild_clock_independent_witness :
    rebuildInstances [{ id := "u1", isFavorite := true, location := "wrld_1:a" }]
      [("u1", ⟨"wrld_1:a", 3⟩)] 5 =
    rebuildInstances [{ id := "u1", isFavorite := true, location := "wrld_1:a" }]
      [("u1", ⟨"wrld_1:a", 3⟩)] 9 :=
  rebuild_clock_independent
    [{ id := "u1", isFavorite := true, location := "wrld_1:a" }]
    [("u1", ⟨"wrld_1:a", 3⟩)] 5 9
    (by
      intro f hf h1 h2
      rcases List.mem_singleton.mp hf with rfl
      exact ⟨⟨"wrld_1:a", 3⟩, rfl, by decide⟩)

/-- C4 counterexample to the claim as stated: a contact with no stored
timestamp record is assigned `joinedAt := Date.now()`, so two rebuilds
of the same contact and timestamp maps at different clock readings
produce different output — the rebuild is not a pure function of the
two maps alone. -/
theorem rebuild_depends_on_clock :
    rebuildInstances [{ id := "u1", isFavorite := true, location := "wrld_1:a" }] [] 1 ≠
    rebuildInstances [{ id := "u1", isFavorite := true, location := "wrld_1:a" }] [] 2 := by
  decide

/-! ## The output order of the rebuild -/

theorem pseudoRank_eq_two (g : InstanceGroup) : pseudoRank g = 2 ↔ isHiddenG g = true := by
  unfold pseudoRank
  cases h : isHiddenG g
  · cases ht : isTravelingG g <;> simp
  · simp

theorem tieLe_total (a b : InstanceGroup) : tieLe a b ∨ tieLe b a := by
  unfold tieLe
  omega

theorem tieLe_trans (a b c : InstanceGroup) :
    tieLe a b → tieLe b c → tieLe a c := by
  unfold tieLe
  omega

theorem specLe_total (now : Nat) (a b : InstanceGroup) :
    specLe now a b ∨ specLe now b a := by
  unfold specLe
  by_cases hr : pseudoRank a = pseudoRank b
  · by_cases hH : isHiddenG a = true
    · have hHb : isHiddenG b = true :=
        (pseudoRank_eq_two b).mp (hr ▸ (pseudoRank_eq_two a).mpr hH)
      rcases tieLe_total a b with h | h
      · exact Or.inl (Or.inr ⟨hr, by rw [if_pos hH]; exact h⟩)
      · exact Or.inr (Or.inr ⟨hr.symm, by rw [if_pos hHb]; exact h⟩)
    · have hHb : ¬ isHiddenG b = true := fun hb2 =>
        hH ((pseudoRank_eq_two a).mp (hr.symm ▸ (pseudoRank_eq_two b).mpr hb2))
      by_cases ho : oldestJoin now a = oldestJoin now b
      · rcases tieLe_total a b with h | h
        · exact Or.inl (Or.inr ⟨hr, by rw [if_neg hH]; exact Or.inr ⟨ho, h⟩⟩)
        · exact Or.inr (Or.inr ⟨hr.symm, by rw [if_neg hHb]; exact Or.inr ⟨ho.symm, h⟩⟩)
      · rcases Nat.lt_or_ge (oldestJoin now a) (oldestJoin now b) with h | h
        · exact Or.inl (Or.inr ⟨hr, by rw [if_neg hH]; exact Or.inl h⟩)
        · exact Or.inr (Or.inr ⟨hr.symm, by rw [if_neg hHb]; exact Or.inl (by omega)⟩)
  · rcases Nat.lt_or_ge (pseudoRank a) (pseudoRank b) with h | h
    · exact Or.inl (Or.inl h)
    · exact Or.inr (Or.inl (by omega))

theorem specLe_trans (now : Nat) (a b c : InstanceGroup)
    (h1 : specLe now a b) (h2 : specLe now b c) : specLe now a c := by
  unfold specLe at h1 h2 ⊢
  rcases h1 with h1 | ⟨he1, hr1⟩
  · rcases h2 with h2 | ⟨he2, hr2⟩
    · exact Or.inl (Nat.lt_trans h1 h2)
    · exact Or.inl (he2 ▸ h1)
  · rcases h2 with h2 | ⟨he2, hr2⟩
    · exact Or.inl (he1 ▸ h2)
    · refine Or.inr ⟨he1.trans he2, ?_⟩
      by_cases hH : isHiddenG a = true
      · have hHb : isHiddenG b = true :=
          (pseudoRank_eq_two b).mp (he1 ▸ (pseudoRank_eq_two a).mpr hH)
        rw [if_pos hH] at hr1 ⊢
        rw [if_pos hHb] at hr2
        exact tieLe_trans a b c hr1 hr2
      · have hHb : ¬ isHiddenG b = true := fun hb2 =>
          hH ((pseudoRank_eq_two a).mp (he1.symm ▸ (pseudoRank_eq_two b).mpr hb2))
        rw [if_neg hH] at hr1 ⊢
        rw [if_neg hHb] at hr2
        unfold tieLe at hr1 hr2 ⊢
        omega

theorem instCmp_le_iff_specLe (now : Nat) (a b : InstanceGroup)
    (ha : isTravelingG a = true → isHiddenG a = false)
    (hb : isTravelingG b = true → isHiddenG b = false) :
    (instCmp now a b ≤ 0 ↔ specLe now a b) := by
  unfold instCmp specLe pseudoRank tieLe
  cases haH : isHiddenG a <;> cases haT : isTravelingG a <;>
    cases hbH : isHiddenG b <;> cases hbT : isTravelingG b
  all_goals try cases (haH.symm.trans (ha haT) : (true : Bool) = false)
  all_goals try cases (hbH.symm.trans (hb hbT) : (true : Bool) = false)
  all_goals simp only [haH, haT, hbH, hbT]
  all_goals simp
  all_goals split_ifs <;> omega

/-- C5 (amended): the rebuilt instance list is ordered by: groups whose
key is the `private` sentinel or whose displayed world name is "Private
World" (which captures concrete venues whose unresolved name falls back
to "Private World") pinned last; the traveling pseudo-group after all
remaining venues but before the pinned ones; the remaining venues
ascending by the earliest `joinedAt` among their favorited occupants,
ties broken by ascending minimum favorite-group ordinal, then by
descending favorite count (the pinned groups among themselves by the
same two tie-breakers). -/
theorem rebuild_output_order (contacts : List Friend) (ts : TSMap) (now : Nat) :
    List.Pairwise (specLe now) (rebuildInstances contacts ts now) := by
  have hOK : ∀ g ∈ buildGrouped contacts ts now, groupOK contacts g :=
    buildGrouped_ok contacts ts now contacts [] (fun f hf => hf) (by simp)
  have hinv : ∀ g ∈ ((buildGrouped contacts ts now).map (sortWithin now)).filter
      (fun g => 0 < g.userCount), isTravelingG g = true → isHiddenG g = false := by
    intro g hg ht
    obtain ⟨hgmem, _⟩ := List.mem_filter.mp hg
    rcases List.mem_map.mp hgmem with ⟨g0, hg0, rfl⟩
    have hok := hOK g0 hg0
    have hid : g0.id = "traveling" := by
      have := (sortWithin_proj now g0).1
      unfold isTravelingG at ht
      simp only [decide_eq_true_eq] at ht
      rw [this] at ht
      exact ht
    have hw : g0.worldName = "Traveling" := hok.2.2.2.2.2.2 hid
    unfold isHiddenG
    rw [(sortWithin_proj now g0).1, (sortWithin_proj now g0).2.2.1, hid, hw]
    decide
  unfold rebuildInstances
  refine List.Pairwise.imp_of_mem ?_
    (pairwise_insertionSortBy (fun a b => decide (instCmp now a b ≤ 0))
      (((buildGrouped contacts ts now).map (sortWithin now)).filter
        (fun g => 0 < g.userCount)) ?_ ?_)
  · intro x y hx hy hxy
    have hx2 := (mem_insertionSortBy _ x _).mp hx
    have hy2 := (mem_insertionSortBy _ y _).mp hy
    rw [decide_eq_true_eq] at hxy
    exact (instCmp_le_iff_specLe now x y (hinv x hx2) (hinv y hy2)).mp hxy
  · intro x hx y hy
    rcases specLe_total now x y with h | h
    · exact Or.inl (by
        rw [decide_eq_true_eq]
        exact (instCmp_le_iff_specLe now x y (hinv x hx) (hinv y hy)).mpr h)
    · exact Or.inr (by
        rw [decide_eq_true_eq]
        exact (instCmp_le_iff_specLe now y x (hinv y hy) (hinv x hx)).mpr h)
  · intro x hx y hy z hz h1 h2
    rw [decide_eq_true_eq] at h1 h2 ⊢
    exact (instCmp_le_iff_specLe now x z (hinv x hx) (hinv z hz)).mpr
      (specLe_trans now x y z
        ((instCmp_le_iff_specLe now x y (hinv x hx) (hinv y hy)).mp h1)
        ((instCmp_le_iff_specLe now y z (hinv y hy) (hinv z hz)).mp h2))

/-- C5 counterexample to the claim as stated: both locations below are
concrete venues (their keys are neither `private` nor `traveling`), the
first one's earliest favorited `joinedAt` is 1 and the second one's is
5, yet the rebuild orders the second first — because the first venue's
location contains `private` and its world name is unresolved, its
display name falls back to "Private World" and the comparator pins it
last instead of sorting it by earliest join time. -/
theorem concrete_venue_pinned_as_private :
    (rebuildInstances
      [{ id := "u1", name := "U1", isFavorite := true,
         location := "wrld_1:x~private(usr_o)" },
       { id := "u2", name := "U2", isFavorite := true, location := "wrld_2:y",
         worldName := some "W" }]
      [("u1", ⟨"wrld_1:x~private(usr_o)", 1⟩), ("u2", ⟨"wrld_2:y", 5⟩)] 100).map
        (fun g => (g.id, oldestJoin 100 g, g.worldName)) =
      [("wrld_2:y", 5, "W"), ("wrld_1:x~private(usr_o)", 1, "Private World")] := by
  decide

end VRCSocial
